import Mathlib

/-!
# MergeGuard core pipeline: formal model and verification

A shallow embedding of the MergeGuard analysis pipeline
(`src/mergeguard/analysis/{ast_parser,similarity,dependency,diff_parser}.py`,
`src/mergeguard/core/{conflict,risk_scorer,regression}.py`) in Lean 4,
with theorems settling the specification claims about it.

Python floats are modelled as `ℚ` (every constant involved is a small decimal
rational, far from any float-rounding boundary exercised here), Python `int`
line numbers and PR numbers as `ℕ`, Python `str` as `List Char` (so that all
operations are structurally recursive and computable by the kernel), and
Python sets as deduplicated lists or `Finset`s.
-/

namespace MergeGuard

/-- Python strings are modelled as their character sequences. -/
abbrev Str := List Char

/-- Conversion from a Lean string literal to the model type. -/
def str (s : String) : Str := s.toList

/-! ## Data model (`src/mergeguard/models.py`)

Presentational metadata fields (titles, authors, timestamps, labels,
free-text PR descriptions) that no embedded operation reads are omitted
from the records. -/

inductive ConflictSeverity where
  | critical
  | warning
  | info
deriving DecidableEq, Repr

inductive ConflictType where
  | hard
  | interface
  | behavioral
  | duplication
  | transitive
  | regression
deriving DecidableEq, Repr

inductive SymbolType where
  | function
  | method
  | «class»
  | variable
  | constant
  | export
  | «import»
  | type_alias
  | interface
  | endpoint
deriving DecidableEq, Repr

inductive FileChangeStatus where
  | added
  | modified
  | removed
  | renamed
deriving DecidableEq, Repr

inductive AIAttribution where
  | human
  | ai_confirmed
  | ai_suspected
  | unknown
deriving DecidableEq, Repr

structure Symbol where
  name : Str
  symbol_type : SymbolType
  file_path : Str
  start_line : Nat
  end_line : Nat
  signature : Option Str := none
  parent : Option Str := none
  dependencies : List Str := []
deriving DecidableEq, Repr

structure ChangedFile where
  path : Str
  status : FileChangeStatus
  additions : Nat := 0
  deletions : Nat := 0
  patch : Option Str := none
  previous_path : Option Str := none
deriving DecidableEq, Repr

structure ChangedSymbol where
  symbol : Symbol
  change_type : Str
  diff_lines : Nat × Nat
  raw_diff : Option Str := none
deriving DecidableEq, Repr

structure PRInfo where
  number : Nat
  changed_files : List ChangedFile := []
  changed_symbols : List ChangedSymbol := []
  ai_attribution : AIAttribution := AIAttribution.unknown
deriving DecidableEq, Repr

/-- `PRInfo.file_paths` property: the set of changed file paths,
modelled as a deduplicated list. -/
def PRInfo.file_paths (pr : PRInfo) : List Str :=
  (pr.changed_files.map (fun f => f.path)).dedup

/-- `PRInfo.symbol_names` property: the set of changed symbol names. -/
def PRInfo.symbol_names (pr : PRInfo) : List Str :=
  (pr.changed_symbols.map (fun s => s.symbol.name)).dedup

structure Conflict where
  conflict_type : ConflictType
  severity : ConflictSeverity
  source_pr : Nat
  target_pr : Nat
  file_path : Str
  symbol_name : Option Str := none
  description : Str
  recommendation : Str
  source_lines : Option (Nat × Nat) := none
  target_lines : Option (Nat × Nat) := none
deriving DecidableEq, Repr

/-! ## Diff-to-symbol mapper (`analysis/ast_parser.py`, `map_diff_to_symbols`) -/

/-- The inner `for mod_start, mod_end in modified_ranges` loop of
`map_diff_to_symbols`: scan the ranges and report whether any of them
overlaps the symbol
(`symbol.start_line <= mod_end and mod_start <= symbol.end_line`);
the `break` after the first hit is the early `true` here. -/
def symbolHit (symbol : Symbol) : List (Nat × Nat) → Bool
  | [] => false
  | (mod_start, mod_end) :: rest =>
    if symbol.start_line ≤ mod_end ∧ mod_start ≤ symbol.end_line then true
    else symbolHit symbol rest

/-- `map_diff_to_symbols(symbols, modified_ranges)`: the subset of symbols
whose line span overlaps some modified range; each symbol appended at most
once (the `break` prevents double-counting). -/
def map_diff_to_symbols (symbols : List Symbol) (modified_ranges : List (Nat × Nat)) :
    List Symbol :=
  match symbols with
  | [] => []
  | s :: rest =>
    if symbolHit s modified_ranges then s :: map_diff_to_symbols rest modified_ranges
    else map_diff_to_symbols rest modified_ranges

lemma symbolHit_iff (s : Symbol) (R : List (Nat × Nat)) :
    symbolHit s R = true ↔ ∃ r ∈ R, s.start_line ≤ r.2 ∧ r.1 ≤ s.end_line := by
  induction R with
  | nil => simp [symbolHit]
  | cons r rest ih =>
    obtain ⟨ms, me⟩ := r
    by_cases h : s.start_line ≤ me ∧ ms ≤ s.end_line
    · simp [symbolHit, h]
    · simp only [symbolHit, if_neg h, ih, List.mem_cons]
      constructor
      · rintro ⟨r', hr', hov⟩
        exact ⟨r', Or.inr hr', hov⟩
      · rintro ⟨r', hr' | hr', hov⟩
        · cases hr'
          exact absurd hov h
        · exact ⟨r', hr', hov⟩

lemma map_diff_sublist (S : List Symbol) (R : List (Nat × Nat)) :
    (map_diff_to_symbols S R).Sublist S := by
  induction S with
  | nil => simp [map_diff_to_symbols]
  | cons s rest ih =>
    by_cases h : symbolHit s R
    · simpa [map_diff_to_symbols, h] using ih.cons₂ s
    · simpa [map_diff_to_symbols, h] using ih.cons s

lemma map_diff_mem (S : List Symbol) (R : List (Nat × Nat)) (s : Symbol) :
    s ∈ map_diff_to_symbols S R ↔
      s ∈ S ∧ ∃ r ∈ R, s.start_line ≤ r.2 ∧ r.1 ≤ s.end_line := by
  induction S with
  | nil => simp [map_diff_to_symbols]
  | cons a rest ih =>
    by_cases h : symbolHit a R
    · simp only [map_diff_to_symbols, if_pos h, List.mem_cons, ih]
      constructor
      · rintro (hs | ⟨hm, hov⟩)
        · exact ⟨Or.inl hs, hs ▸ (symbolHit_iff a R).mp h⟩
        · exact ⟨Or.inr hm, hov⟩
      · rintro ⟨hs | hm, hov⟩
        · exact Or.inl hs
        · exact Or.inr ⟨hm, hov⟩
    · simp only [map_diff_to_symbols, if_neg h, ih, List.mem_cons]
      constructor
      · rintro ⟨hm, hov⟩
        exact ⟨Or.inr hm, hov⟩
      · rintro ⟨hs | hm, hov⟩
        · exact absurd ((symbolHit_iff s R).mpr (hs ▸ hov)) (hs ▸ h)
        · exact ⟨hm, hov⟩

/-- C1: the mapper's output is a subset (in fact a sublist) of its input,
a symbol of the input appears in the output iff its closed line interval
overlaps some modified range, and when the input has no duplicates the output
has none either — overlapping several ranges never duplicates a symbol. -/
theorem map_diff_to_symbols_spec (S : List Symbol) (R : List (Nat × Nat)) :
    (map_diff_to_symbols S R).Sublist S ∧
    (∀ s : Symbol, s ∈ map_diff_to_symbols S R ↔
      s ∈ S ∧ ∃ r ∈ R, s.start_line ≤ r.2 ∧ r.1 ≤ s.end_line) ∧
    (S.Nodup → (map_diff_to_symbols S R).Nodup) :=
  ⟨map_diff_sublist S R, map_diff_mem S R,
   fun h => (map_diff_sublist S R).nodup h⟩

/-- A concrete symbol for witnesses. -/
def sampleSymbol : Symbol :=
  { name := str "getUserById"
    symbol_type := SymbolType.function
    file_path := str "a.py"
    start_line := 10
    end_line := 20 }

/-- Witness for C1 at a concrete input: a one-symbol list with a range
overlapping it; the Nodup hypothesis is discharged by evaluation. -/
theorem map_diff_to_symbols_spec_witness :
    ([sampleSymbol] : List Symbol).Nodup ∧
    (map_diff_to_symbols [sampleSymbol] [(15, 30)]).Nodup ∧
    sampleSymbol ∈ map_diff_to_symbols [sampleSymbol] [(15, 30)] := by
  refine ⟨by decide, (map_diff_to_symbols_spec [sampleSymbol] [(15, 30)]).2.2 (by decide), ?_⟩
  exact (map_diff_to_symbols_spec [sampleSymbol] [(15, 30)]).2.1 sampleSymbol |>.mpr
    (by decide)

/-! ## Similarity engine (`analysis/similarity.py`) -/

/-- `jaccard_similarity(set_a, set_b)`: `|A ∩ B| / |A ∪ B|`, with the
`if not set_a and not set_b: return 0.0` guard for two empty sets. -/
def jaccard_similarity (set_a set_b : Finset Str) : ℚ :=
  if set_a = ∅ ∧ set_b = ∅ then 0
  else ((set_a ∩ set_b).card : ℚ) / ((set_a ∪ set_b).card : ℚ)

lemma union_card_pos {A B : Finset Str} (h : ¬(A = ∅ ∧ B = ∅)) :
    0 < ((A ∪ B).card : ℚ) := by
  have : (A ∪ B).Nonempty := by
    rcases Finset.eq_empty_or_nonempty A with hA | hA
    · rcases Finset.eq_empty_or_nonempty B with hB | hB
      · exact absurd ⟨hA, hB⟩ h
      · exact hB.mono Finset.subset_union_right
    · exact hA.mono Finset.subset_union_left
  exact_mod_cast Finset.card_pos.mpr this

/-- C5: Jaccard similarity is symmetric, bounded in `[0,1]`, equals `1`
exactly for identical non-empty sets, and equals `0` for disjoint sets or
two empty sets. -/
theorem jaccard_similarity_spec (A B : Finset Str) :
    jaccard_similarity A B = jaccard_similarity B A ∧
    0 ≤ jaccard_similarity A B ∧
    jaccard_similarity A B ≤ 1 ∧
    (jaccard_similarity A B = 1 ↔ A = B ∧ A ≠ ∅) ∧
    ((A ∩ B = ∅ ∨ (A = ∅ ∧ B = ∅)) → jaccard_similarity A B = 0) := by
  refine ⟨?_, ?_, ?_, ?_, ?_⟩
  · unfold jaccard_similarity
    rw [Finset.inter_comm, Finset.union_comm]
    by_cases h : A = ∅ ∧ B = ∅
    · rw [if_pos h, if_pos ⟨h.2, h.1⟩]
    · rw [if_neg h, if_neg (fun hc => h ⟨hc.2, hc.1⟩)]
  · unfold jaccard_similarity
    by_cases h : A = ∅ ∧ B = ∅
    · rw [if_pos h]
    · rw [if_neg h]
      positivity
  · unfold jaccard_similarity
    by_cases h : A = ∅ ∧ B = ∅
    · rw [if_pos h]; norm_num
    · rw [if_neg h]
      rw [div_le_one (union_card_pos h)]
      exact_mod_cast Finset.card_le_card (Finset.inter_subset_union)
  · unfold jaccard_similarity
    by_cases h : A = ∅ ∧ B = ∅
    · rw [if_pos h]
      simp only [zero_ne_one, false_iff]
      rintro ⟨-, hA⟩
      exact hA h.1
    · rw [if_neg h]
      rw [div_eq_one_iff_eq (ne_of_gt (union_card_pos h))]
      constructor
      · intro hc
        have hcard : (A ∩ B).card = (A ∪ B).card := by exact_mod_cast hc
        have hsets : A ∩ B = A ∪ B :=
          Finset.eq_of_subset_of_card_le Finset.inter_subset_union (le_of_eq hcard.symm)
        have hAB : A = B := by
          apply Finset.Subset.antisymm
          · intro x hx
            have : x ∈ A ∩ B := hsets ▸ Finset.mem_union_left B hx
            exact (Finset.mem_inter.mp this).2
          · intro x hx
            have : x ∈ A ∩ B := hsets ▸ Finset.mem_union_right A hx
            exact (Finset.mem_inter.mp this).1
        refine ⟨hAB, fun hA => h ⟨hA, hAB ▸ hA⟩⟩
      · rintro ⟨rfl, -⟩
        rw [Finset.inter_self, Finset.union_self]
  · intro hd
    unfold jaccard_similarity
    by_cases h : A = ∅ ∧ B = ∅
    · rw [if_pos h]
    · rw [if_neg h]
      rcases hd with hd | hd
      · rw [hd]
        simp
      · exact absurd hd h

/-- Witness for C5 at concrete sets: disjoint sets score `0`. -/
theorem jaccard_similarity_spec_witness :
    jaccard_similarity {str "a"} {str "b"} = 0 :=
  (jaccard_similarity_spec {str "a"} {str "b"}).2.2.2.2 (Or.inl (by decide))

/-- `name.lower().replace("_", "")`: lowercase the name, then delete every
underscore (replacement by the empty string deletes all occurrences). -/
def normName (name : Str) : Str :=
  (name.map Char.toLower).filter (fun c => c ≠ '_')

/-- `_name_distance(name_a, name_b)` from `analysis/similarity.py`:
tiered name similarity.  `min(norm_a, norm_b, key=len)` returns its first
argument when the lengths tie, and so does `max(norm_a, norm_b, key=len)`;
both selectors are translated accordingly. -/
def _name_distance (name_a name_b : Str) : ℚ :=
  if name_a = name_b then 1
  else
    let norm_a := normName name_a
    let norm_b := normName name_b
    if norm_a = norm_b then 0.95
    else
      let shorter := if norm_a.length ≤ norm_b.length then norm_a else norm_b
      let longer := if norm_b.length ≤ norm_a.length then norm_a else norm_b
      if shorter <+: longer ∧ 3 < shorter.length then 0.7
      else
        let chars_a := norm_a.toFinset
        let chars_b := norm_b.toFinset
        (((chars_a ∩ chars_b).card : ℚ) / (max (chars_a ∪ chars_b).card 1 : ℕ)) * 0.5

/-- The specification's wording of the third tier: one normalized name is a
strict prefix of the other and the shorter one exceeds 3 characters. -/
def strictPrefixTier (name_a name_b : Str) : Prop :=
  ((normName name_a).length < (normName name_b).length ∧
     normName name_a <+: normName name_b ∧ 3 < (normName name_a).length) ∨
  ((normName name_b).length < (normName name_a).length ∧
     normName name_b <+: normName name_a ∧ 3 < (normName name_b).length)

instance (a b : Str) : Decidable (strictPrefixTier a b) := by
  unfold strictPrefixTier
  infer_instance

/-- The fallback tier's value as the specification words it: character-set
Jaccard overlap of the two normalized names, scaled by `0.5`. -/
def charOverlapHalf (name_a name_b : Str) : ℚ :=
  let chars_a := (normName name_a).toFinset
  let chars_b := (normName name_b).toFinset
  (((chars_a ∩ chars_b).card : ℚ) / (max (chars_a ∪ chars_b).card 1 : ℕ)) * 0.5

/-- The condition under which the code actually returns `0.7`: the spec's
strict-prefix tier, or — because `min`/`max` with `key=len` both return
`norm_a` on a length tie, making `startswith` compare `norm_a` with itself —
two distinct normalized names of equal length exceeding 3. -/
def prefixTierCond (name_a name_b : Str) : Prop :=
  strictPrefixTier name_a name_b ∨
  ((normName name_a).length = (normName name_b).length ∧ 3 < (normName name_a).length)

instance (a b : Str) : Decidable (prefixTierCond a b) := by
  unfold prefixTierCond
  infer_instance

/-- C6 counterexample: two distinct four-character names with disjoint
character sets, neither a prefix of the other.  The claim's tiers assign
them `charOverlapHalf = 0`, but the code returns `0.7` because the
`min`/`max(key=len)` pair degenerates on the length tie. -/
theorem name_distance_counterexample :
    _name_distance (str "abcd") (str "efgh") = 0.7 ∧
    ¬ strictPrefixTier (str "abcd") (str "efgh") ∧
    str "abcd" ≠ str "efgh" ∧
    normName (str "abcd") ≠ normName (str "efgh") ∧
    charOverlapHalf (str "abcd") (str "efgh") = 0 ∧
    (0.7 : ℚ) ≠ 0 := by
  refine ⟨?_, by decide, by decide, by decide, ?_, by norm_num⟩
  · unfold _name_distance
    rw [if_neg (by decide), if_neg (by decide), if_pos (by constructor <;> decide)]
  · unfold charOverlapHalf
    have h0 : ((normName (str "abcd")).toFinset ∩ (normName (str "efgh")).toFinset).card = 0 := by
      decide
    show (((normName (str "abcd")).toFinset ∩ (normName (str "efgh")).toFinset).card : ℚ) /
        ((((normName (str "abcd")).toFinset ∪ (normName (str "efgh")).toFinset).card ⊔ 1 : ℕ) : ℚ) *
        0.5 = 0
    rw [h0]
    rw [Nat.cast_zero, zero_div, zero_mul]

/-- C6 (amended): the tiers are mutually exclusive with the highest matching
tier winning, never blended — exact match `1.0`; normalized match `0.95`;
`0.7` when the shorter normalized name (first argument on a length tie) is a
prefix of the longer and exceeds 3 characters, which holds exactly for a
strict prefix or for distinct equal-length normalizations longer than 3;
otherwise the character-set Jaccard overlap scaled by `0.5`, hence at most
`0.5`. -/
theorem name_distance_tiers (a b : Str) :
    (a = b → _name_distance a b = 1) ∧
    (a ≠ b → normName a = normName b → _name_distance a b = 0.95) ∧
    (a ≠ b → normName a ≠ normName b → prefixTierCond a b →
      _name_distance a b = 0.7) ∧
    (a ≠ b → normName a ≠ normName b → ¬ prefixTierCond a b →
      _name_distance a b = charOverlapHalf a b ∧ charOverlapHalf a b ≤ 0.5) := by
  have hcond : normName a ≠ normName b →
      (((if (normName a).length ≤ (normName b).length then normName a else normName b) <+:
        (if (normName b).length ≤ (normName a).length then normName a else normName b)) ∧
       3 < (if (normName a).length ≤ (normName b).length then normName a
            else normName b).length
        ↔ prefixTierCond a b) := by
    intro hne
    rcases Nat.lt_trichotomy (normName a).length (normName b).length with hlt | heq | hgt
    · rw [if_pos (le_of_lt hlt), if_neg (not_le.mpr hlt)]
      unfold prefixTierCond strictPrefixTier
      constructor
      · rintro ⟨hp, hl⟩
        exact Or.inl (Or.inl ⟨hlt, hp, hl⟩)
      · rintro ((⟨-, hp, hl⟩ | ⟨hba, -, -⟩) | ⟨hlen, -⟩)
        · exact ⟨hp, hl⟩
        · exact absurd hba (Nat.lt_asymm hlt)
        · exact absurd hlen (Nat.ne_of_lt hlt)
    · rw [if_pos (le_of_eq heq), if_pos (le_of_eq heq.symm)]
      unfold prefixTierCond strictPrefixTier
      constructor
      · rintro ⟨-, hl⟩
        exact Or.inr ⟨heq, hl⟩
      · rintro ((⟨hab, -, -⟩ | ⟨hba, -, -⟩) | ⟨-, hl⟩)
        · exact absurd hab (heq ▸ lt_irrefl _)
        · exact absurd hba (heq ▸ lt_irrefl _)
        · exact ⟨List.prefix_refl _, hl⟩
    · rw [if_neg (not_le.mpr hgt), if_pos (le_of_lt hgt)]
      unfold prefixTierCond strictPrefixTier
      constructor
      · rintro ⟨hp, hl⟩
        exact Or.inl (Or.inr ⟨hgt, hp, hl⟩)
      · rintro ((⟨hab, -, -⟩ | ⟨-, hp, hl⟩) | ⟨hlen, -⟩)
        · exact absurd hab (Nat.lt_asymm hgt)
        · exact ⟨hp, hl⟩
        · exact absurd hlen.symm (Nat.ne_of_lt hgt)
  refine ⟨fun h => by simp [_name_distance, h], fun hab hnorm => by
    simp [_name_distance, hab, hnorm], fun hab hnorm hc => ?_, fun hab hnorm hc => ?_⟩
  · unfold _name_distance
    rw [if_neg hab, if_neg hnorm, if_pos ((hcond hnorm).mpr hc)]
  · constructor
    · unfold _name_distance charOverlapHalf
      rw [if_neg hab, if_neg hnorm, if_neg (fun hp => hc ((hcond hnorm).mp hp))]
    · unfold charOverlapHalf
      have hden : (0 : ℚ) < (max ((normName a).toFinset ∪ (normName b).toFinset).card 1 : ℕ) := by
        have : 1 ≤ max ((normName a).toFinset ∪ (normName b).toFinset).card 1 :=
          le_max_right _ _
        exact_mod_cast Nat.lt_of_lt_of_le Nat.zero_lt_one this
      have hle : (((normName a).toFinset ∩ (normName b).toFinset).card : ℚ) ≤
          (max ((normName a).toFinset ∪ (normName b).toFinset).card 1 : ℕ) := by
        have h1 : ((normName a).toFinset ∩ (normName b).toFinset).card ≤
            ((normName a).toFinset ∪ (normName b).toFinset).card :=
          Finset.card_le_card Finset.inter_subset_union
        exact_mod_cast le_trans h1 (le_max_left _ _)
      have hq : (((normName a).toFinset ∩ (normName b).toFinset).card : ℚ) /
          (max ((normName a).toFinset ∪ (normName b).toFinset).card 1 : ℕ) ≤ 1 :=
        (div_le_one hden).mpr hle
      have := mul_le_mul_of_nonneg_right hq (by norm_num : (0 : ℚ) ≤ 0.5)
      simpa using this

/-- Witness for C6 (amended) at concrete names: `get_user` vs
`get_user_by_id` land in the prefix tier and score `0.7`. -/
theorem name_distance_tiers_witness :
    _name_distance (str "get_user") (str "get_user_by_id") = 0.7 :=
  (name_distance_tiers (str "get_user") (str "get_user_by_id")).2.2.1
    (by decide) (by decide) (by decide)

/-- `\w` of `re.findall(r"\w+", ...)`: alphanumeric or underscore. -/
def isWordChar (c : Char) : Bool := c.isAlphanum || c = '_'

/-- The token list matched by `re.findall(r"\w+", signature)`: maximal runs
of word characters, in order. -/
def wordRuns : Str → List Str
  | [] => []
  | c :: cs =>
    let rest := wordRuns cs
    if isWordChar c then
      match cs with
      | c' :: _ =>
        if isWordChar c' then
          match rest with
          | t :: ts => (c :: t) :: ts
          | [] => [[c]]
        else [c] :: rest
      | [] => [[c]]
    else rest

/-- `_tokenize_signature(signature)`: the set of `\w+` tokens. -/
def _tokenize_signature (signature : Str) : Finset Str :=
  (wordRuns signature).toFinset

/-- `signature_similarity(sig_a, sig_b)`: token-level Jaccard similarity;
`if not sig_a or not sig_b: return 0.0` treats both `None` and the empty
string as absent. -/
def signature_similarity (sig_a sig_b : Option Str) : ℚ :=
  match sig_a, sig_b with
  | some a, some b =>
    if a = [] ∨ b = [] then 0
    else jaccard_similarity (_tokenize_signature a) (_tokenize_signature b)
  | _, _ => 0

/-- Default `name_threshold` of `detect_potential_duplications`
(keyword default `0.6` in the source, passed explicitly here). -/
def default_name_threshold : ℚ := 0.6

/-- Default `signature_threshold` of `detect_potential_duplications`
(keyword default `0.7` in the source). -/
def default_signature_threshold : ℚ := 0.7

/-- One iteration of the nested loop body of `detect_potential_duplications`:
skip pairs of different symbol types, skip pairs under the name threshold,
otherwise combine 40% name similarity with 60% signature similarity
(`combined = name_sim * 0.4 + sig_sim * 0.6`, the bindings of the source
inlined) and keep the pair when `combined >= signature_threshold`. -/
def dupEntry (name_threshold signature_threshold : ℚ) (new_sym other_sym : Symbol) :
    Option (Symbol × Symbol × ℚ) :=
  if new_sym.symbol_type ≠ other_sym.symbol_type then none
  else if _name_distance new_sym.name other_sym.name < name_threshold then none
  else if signature_threshold ≤ _name_distance new_sym.name other_sym.name * 0.4 +
      signature_similarity new_sym.signature other_sym.signature * 0.6 then
    some (new_sym, other_sym, _name_distance new_sym.name other_sym.name * 0.4 +
      signature_similarity new_sym.signature other_sym.signature * 0.6)
  else none

/-- `detect_potential_duplications(new_symbols, other_symbols, ...)`:
the nested `for new_sym ... for other_sym ...` loops append matches in
iteration order. -/
def detect_potential_duplications (new_symbols other_symbols : List Symbol)
    (name_threshold signature_threshold : ℚ) : List (Symbol × Symbol × ℚ) :=
  new_symbols.flatMap (fun new_sym =>
    other_symbols.filterMap (fun other_sym =>
      dupEntry name_threshold signature_threshold new_sym other_sym))

/-- Concrete symbols for the C7 counterexample. -/
def dupT : Symbol :=
  { name := str "foobar"
    symbol_type := SymbolType.function
    file_path := str "b.py"
    start_line := 1
    end_line := 3
    signature := some (str "def foobar(x)") }

def dupS1 : Symbol :=
  { name := str "Foo_bar"
    symbol_type := SymbolType.function
    file_path := str "a.py"
    start_line := 1
    end_line := 3
    signature := some (str "def foobar(x)") }

def dupS2 : Symbol :=
  { name := str "foobar"
    symbol_type := SymbolType.function
    file_path := str "a.py"
    start_line := 5
    end_line := 7
    signature := some (str "def foobar(x)") }

lemma jaccard_self_tokens :
    jaccard_similarity (_tokenize_signature (str "def foobar(x)"))
      (_tokenize_signature (str "def foobar(x)")) = 1 := by
  unfold jaccard_similarity
  rw [if_neg (by decide), Finset.inter_self, Finset.union_self]
  have h3 : (_tokenize_signature (str "def foobar(x)")).card = 3 := by decide
  rw [h3]
  norm_num

lemma dupEntry_s1 :
    dupEntry 0.6 0.7 dupS1 dupT = some (dupS1, dupT, 0.98) := by
  have hname : _name_distance dupS1.name dupT.name = 0.95 := by
    unfold _name_distance
    rw [if_neg (by decide), if_pos (by decide)]
  have hsig : signature_similarity dupS1.signature dupT.signature = 1 := by
    show (if str "def foobar(x)" = [] ∨ str "def foobar(x)" = [] then (0 : ℚ)
      else jaccard_similarity (_tokenize_signature (str "def foobar(x)"))
        (_tokenize_signature (str "def foobar(x)"))) = 1
    rw [if_neg (by decide)]
    exact jaccard_self_tokens
  unfold dupEntry
  rw [hname, hsig, if_neg (by decide), if_neg (by norm_num), if_pos (by norm_num)]
  norm_num

lemma dupEntry_s2 :
    dupEntry 0.6 0.7 dupS2 dupT = some (dupS2, dupT, 1) := by
  have hname : _name_distance dupS2.name dupT.name = 1 := by
    unfold _name_distance
    rw [if_pos (by decide)]
  have hsig : signature_similarity dupS2.signature dupT.signature = 1 := by
    show (if str "def foobar(x)" = [] ∨ str "def foobar(x)" = [] then (0 : ℚ)
      else jaccard_similarity (_tokenize_signature (str "def foobar(x)"))
        (_tokenize_signature (str "def foobar(x)"))) = 1
    rw [if_neg (by decide)]
    exact jaccard_self_tokens
  unfold dupEntry
  rw [hname, hsig, if_neg (by decide), if_neg (by norm_num), if_pos (by norm_num)]
  norm_num

/-- C7 counterexample: with default thresholds, two reported pairs come out
in iteration order with scores `[0.98, 1]` — not ranked (descending) by
score, refuting the claim's "returns the reported pairs ranked by score". -/
theorem detect_duplications_counterexample :
    (detect_potential_duplications [dupS1, dupS2] [dupT]
        default_name_threshold default_signature_threshold).map
      (fun p => p.2.2) = [0.98, 1] ∧
    ¬ ((List.map (fun p => p.2.2) (detect_potential_duplications [dupS1, dupS2] [dupT]
        default_name_threshold default_signature_threshold)).Sorted (· ≥ ·)) := by
  have hout : detect_potential_duplications [dupS1, dupS2] [dupT]
      default_name_threshold default_signature_threshold =
      [(dupS1, dupT, 0.98), (dupS2, dupT, 1)] := by
    unfold detect_potential_duplications default_name_threshold default_signature_threshold
    simp only [List.flatMap_cons, List.flatMap_nil, List.filterMap_cons, List.filterMap_nil,
      dupEntry_s1, dupEntry_s2, List.append_nil]
    rfl
  constructor
  · rw [hout]
    rfl
  · rw [hout]
    intro hsorted
    have h1 := List.rel_of_sorted_cons hsorted (1 : ℚ) (by simp)
    norm_num at h1

/-- C7 (amended): `detect_potential_duplications` considers only same-kind
pairs, skips pairs under the name threshold, scores the rest as
`0.4 · name + 0.6 · signature`, and reports exactly the pairs whose combined
score reaches the combined threshold — in nested-loop iteration order (outer
over new symbols, inner over other symbols), not ranked by score. -/
theorem detect_duplications_spec (new_symbols other_symbols : List Symbol) (nt st : ℚ) :
    detect_potential_duplications new_symbols other_symbols nt st =
      ((new_symbols.flatMap (fun a => other_symbols.map (fun b => (a, b)))).filter
        (fun p => decide (p.1.symbol_type = p.2.symbol_type ∧
          nt ≤ _name_distance p.1.name p.2.name ∧
          st ≤ _name_distance p.1.name p.2.name * 0.4 +
            signature_similarity p.1.signature p.2.signature * 0.6))).map
        (fun p => (p.1, p.2, _name_distance p.1.name p.2.name * 0.4 +
          signature_similarity p.1.signature p.2.signature * 0.6)) := by
  unfold detect_potential_duplications
  induction new_symbols with
  | nil => rfl
  | cons a rest ih =>
    simp only [List.flatMap_cons, List.filter_append, List.map_append]
    rw [ih]
    clear ih
    congr 1
    induction other_symbols with
    | nil => rfl
    | cons b obs ihb =>
      rw [List.filterMap_cons, List.map_cons, List.filter_cons]
      by_cases hty : a.symbol_type = b.symbol_type
      · by_cases hname : _name_distance a.name b.name < nt
        · have hd : dupEntry nt st a b = none := by
            unfold dupEntry
            rw [if_neg (by simpa using hty), if_pos hname]
          have hp : ¬ (a.symbol_type = b.symbol_type ∧
              nt ≤ _name_distance a.name b.name ∧
              st ≤ _name_distance a.name b.name * 0.4 +
                signature_similarity a.signature b.signature * 0.6) := by
            rintro ⟨-, hle, -⟩
            exact absurd hname (not_lt.mpr hle)
          rw [hd, if_neg (by simp [hp])]
          exact ihb
        · by_cases hcomb : st ≤ _name_distance a.name b.name * 0.4 +
              signature_similarity a.signature b.signature * 0.6
          · have hd : dupEntry nt st a b = some (a, b,
                _name_distance a.name b.name * 0.4 +
                signature_similarity a.signature b.signature * 0.6) := by
              unfold dupEntry
              rw [if_neg (by simpa using hty), if_neg hname, if_pos hcomb]
            have hp : (a.symbol_type = b.symbol_type ∧
                nt ≤ _name_distance a.name b.name ∧
                st ≤ _name_distance a.name b.name * 0.4 +
                  signature_similarity a.signature b.signature * 0.6) :=
              ⟨hty, not_lt.mp hname, hcomb⟩
            rw [hd, if_pos (by simp [hp])]
            rw [List.map_cons, ihb]
          · have hd : dupEntry nt st a b = none := by
              unfold dupEntry
              rw [if_neg (by simpa using hty), if_neg hname, if_neg hcomb]
            have hp : ¬ (a.symbol_type = b.symbol_type ∧
                nt ≤ _name_distance a.name b.name ∧
                st ≤ _name_distance a.name b.name * 0.4 +
                  signature_similarity a.signature b.signature * 0.6) := by
              rintro ⟨-, -, hle⟩
              exact hcomb hle
            rw [hd, if_neg (by simp [hp])]
            exact ihb
      · have hd : dupEntry nt st a b = none := by
          unfold dupEntry
          rw [if_pos (by simpa using hty)]
        have hp : ¬ (a.symbol_type = b.symbol_type ∧
            nt ≤ _name_distance a.name b.name ∧
            st ≤ _name_distance a.name b.name * 0.4 +
              signature_similarity a.signature b.signature * 0.6) := by
          rintro ⟨hc, -, -⟩
          exact hty hc
        rw [hd, if_neg (by simp [hp])]
        exact ihb

/-- Witness for C7 (amended): the characterization applied at the
counterexample's concrete input. -/
theorem detect_duplications_spec_witness :
    detect_potential_duplications [dupS2] [dupT] 0.6 0.7 =
      (([(dupS2, dupT)].filter
        (fun p => decide (p.1.symbol_type = p.2.symbol_type ∧
          (0.6 : ℚ) ≤ _name_distance p.1.name p.2.name ∧
          (0.7 : ℚ) ≤ _name_distance p.1.name p.2.name * 0.4 +
            signature_similarity p.1.signature p.2.signature * 0.6))).map
        (fun p => (p.1, p.2, _name_distance p.1.name p.2.name * 0.4 +
          signature_similarity p.1.signature p.2.signature * 0.6))) := by
  have h := detect_duplications_spec [dupS2] [dupT] 0.6 0.7
  simpa using h

/-! ## Risk scorer (`core/risk_scorer.py`, `_score_conflicts`) -/

/-- The fixed `severity_scores` table: Critical = 100, Warning = 50,
Info = 15. -/
def severity_scores : ConflictSeverity → ℚ
  | ConflictSeverity.critical => 100
  | ConflictSeverity.warning => 50
  | ConflictSeverity.info => 15

/-- The `for i, s in enumerate(scores[1:], start=1)` accumulation:
each subsequent score contributes `s * 0.5 ** i`. -/
def decaySum (i : Nat) : List ℚ → ℚ
  | [] => 0
  | s :: rest => s * (1/2)^i + decaySum (i+1) rest

/-- `_score_conflicts(conflicts)`: `0.0` for no conflicts, otherwise the
severity scores sorted descending (`sorted(..., reverse=True)`, a stable
descending sort), the top score plus the geometrically decayed tail, clamped
to 100.  The `[] => 0` branch of the match is unreachable: sorting a
non-empty list yields a non-empty list. -/
def _score_conflicts (conflicts : List Conflict) : ℚ :=
  if conflicts = [] then 0
  else
    match List.insertionSort (fun a b : ℚ => b ≤ a)
        (conflicts.map (fun c => severity_scores c.severity)) with
    | [] => 0
    | top :: rest => min 100 (top + decaySum 1 rest)

lemma decaySum_enumFrom (l : List ℚ) : ∀ i : Nat,
    decaySum i l = ((List.enumFrom i l).map (fun p => p.2 * (1/2)^p.1)).sum := by
  induction l with
  | nil => intro i; simp [decaySum]
  | cons s rest ih =>
    intro i
    simp only [decaySum, List.enumFrom, List.map_cons, List.sum_cons, ih (i+1)]

/-- C4: `_score_conflicts` returns 0 on no conflicts; maps severities through
critical = 100, warning = 50, info = 15; on a non-empty list it equals the
descending-sorted scores summed with geometric decay `0.5^rank`, clamped at
100 (the sort really is a descending sort and a permutation of the mapped
scores); and one CRITICAL plus one WARNING conflict score
`min(100, 100 + 50·0.5) = 100`. -/
theorem score_conflicts_spec :
    (severity_scores ConflictSeverity.critical = 100 ∧
     severity_scores ConflictSeverity.warning = 50 ∧
     severity_scores ConflictSeverity.info = 15) ∧
    _score_conflicts [] = 0 ∧
    (∀ cs : List Conflict, cs ≠ [] →
      _score_conflicts cs = min 100 (((List.enumFrom 0 (List.insertionSort
        (fun a b : ℚ => b ≤ a) (cs.map (fun c => severity_scores c.severity)))).map
          (fun p => p.2 * (1/2)^p.1)).sum)) ∧
    (∀ cs : List Conflict,
      (List.insertionSort (fun a b : ℚ => b ≤ a)
        (cs.map (fun c => severity_scores c.severity))).Sorted (fun a b => b ≤ a) ∧
      (List.insertionSort (fun a b : ℚ => b ≤ a)
        (cs.map (fun c => severity_scores c.severity))).Perm
          (cs.map (fun c => severity_scores c.severity))) ∧
    (∀ c₁ c₂ : Conflict, c₁.severity = ConflictSeverity.critical →
      c₂.severity = ConflictSeverity.warning →
      _score_conflicts [c₁, c₂] = min 100 (100 + 50 * (1/2)) ∧
      _score_conflicts [c₁, c₂] = 100) := by
  refine ⟨⟨rfl, rfl, rfl⟩, rfl, ?_, ?_, ?_⟩
  · intro cs hcs
    unfold _score_conflicts
    rw [if_neg hcs]
    have hl : cs.map (fun c => severity_scores c.severity) ≠ [] := by
      simpa using hcs
    have hperm := List.perm_insertionSort (fun a b : ℚ => b ≤ a)
      (cs.map (fun c => severity_scores c.severity))
    have hs : List.insertionSort (fun a b : ℚ => b ≤ a)
        (cs.map (fun c => severity_scores c.severity)) ≠ [] := by
      intro h
      rw [h] at hperm
      exact hl (hperm.symm.eq_nil)
    obtain ⟨top, rest, heq⟩ : ∃ top rest, List.insertionSort (fun a b : ℚ => b ≤ a)
        (cs.map (fun c => severity_scores c.severity)) = top :: rest := by
      cases h : List.insertionSort (fun a b : ℚ => b ≤ a)
          (cs.map (fun c => severity_scores c.severity)) with
      | nil => exact absurd h hs
      | cons t r => exact ⟨t, r, rfl⟩
    rw [heq]
    simp only [List.enumFrom, List.map_cons, List.sum_cons, pow_zero, mul_one,
      decaySum_enumFrom rest 1]
  · intro cs
    haveI h1 : IsTotal ℚ (fun a b => b ≤ a) := ⟨fun a b => le_total b a⟩
    haveI h2 : IsTrans ℚ (fun a b => b ≤ a) := ⟨fun _ _ _ hab hbc => le_trans hbc hab⟩
    exact ⟨List.sorted_insertionSort _ _, List.perm_insertionSort _ _⟩
  · intro c₁ c₂ h₁ h₂
    have heval : _score_conflicts [c₁, c₂] = min 100 (100 + 50 * (1/2)) := by
      unfold _score_conflicts
      rw [if_neg (by simp)]
      simp only [List.map_cons, List.map_nil, h₁, h₂]
      norm_num [severity_scores, List.insertionSort, List.orderedInsert, decaySum]
    refine ⟨heval, ?_⟩
    rw [heval]
    rw [min_eq_left (by norm_num)]

/-- A concrete CRITICAL conflict for witnesses. -/
def sampleCriticalConflict : Conflict :=
  { conflict_type := ConflictType.hard
    severity := ConflictSeverity.critical
    source_pr := 1
    target_pr := 2
    file_path := str "a.py"
    symbol_name := some (str "f")
    description := str "hard"
    recommendation := str "coordinate" }

/-- A concrete WARNING conflict for witnesses. -/
def sampleWarningConflict : Conflict :=
  { conflict_type := ConflictType.behavioral
    severity := ConflictSeverity.warning
    source_pr := 1
    target_pr := 2
    file_path := str "a.py"
    symbol_name := some (str "g")
    description := str "behavioral"
    recommendation := str "review" }

/-- Witness for C4: the scenario applied at two concrete conflicts. -/
theorem score_conflicts_spec_witness :
    _score_conflicts [sampleCriticalConflict, sampleWarningConflict] = 100 :=
  (score_conflicts_spec.2.2.2.2 sampleCriticalConflict sampleWarningConflict rfl rfl).2

/-! ## Conflict classifier (`core/conflict.py`) -/

structure FileOverlap where
  file_path : Str
  pr_a : Nat
  pr_b : Nat
  pr_a_lines : List (Nat × Nat)
  pr_b_lines : List (Nat × Nat)
deriving DecidableEq, Repr

/-- `FileOverlap.has_line_overlap`: some range of PR A intersects some range
of PR B under the closed-interval test
(`a_start <= b_end and b_start <= a_end`). -/
def FileOverlap.has_line_overlap (ov : FileOverlap) : Bool :=
  ov.pr_a_lines.any (fun a => ov.pr_b_lines.any (fun b => decide (a.1 ≤ b.2 ∧ b.1 ≤ a.2)))

/-- The set comprehension
`{cs.symbol.name for cs in pr.changed_symbols if cs.symbol.file_path == path}`,
as a deduplicated list. -/
def changedSymbolNames (pr : PRInfo) (file_path : Str) : List Str :=
  ((pr.changed_symbols.filter (fun cs => decide (cs.symbol.file_path = file_path))).map
    (fun cs => cs.symbol.name)).dedup

/-- `target_symbols & other_symbols`: the shared changed-entity names of the
two PRs restricted to one file. -/
def sharedSymbols (target other : PRInfo) (file_path : Str) : List Str :=
  (changedSymbolNames target file_path).filter
    (fun n => decide (n ∈ changedSymbolNames other file_path))

/-- Decimal rendering of a PR number, for the `#{n}` f-string fragments. -/
def natStr (n : Nat) : Str := Nat.toDigits 10 n

/-- The CRITICAL hard conflict built per shared symbol name. -/
def hardCriticalConflict (target other : PRInfo) (ov : FileOverlap)
    (symbol_name : Str) : Conflict :=
  { conflict_type := ConflictType.hard
    severity := ConflictSeverity.critical
    source_pr := target.number
    target_pr := other.number
    file_path := ov.file_path
    symbol_name := some symbol_name
    description := str "Both PRs modify `" ++ symbol_name ++ str "` in `" ++
      ov.file_path ++ str "` at overlapping lines."
    recommendation := str "Coordinate with the other PR author. One PR should merge first, then the other should rebase and resolve conflicts." }

/-- The WARNING hard conflict built for a line-overlapping file with no
shared symbol name. -/
def hardWarningConflict (target other : PRInfo) (ov : FileOverlap) : Conflict :=
  { conflict_type := ConflictType.hard
    severity := ConflictSeverity.warning
    source_pr := target.number
    target_pr := other.number
    file_path := ov.file_path
    symbol_name := none
    description := str "Both PRs modify `" ++ ov.file_path ++
      str "` at overlapping line ranges."
    recommendation := str "Review both changes for compatibility. Consider merging one PR first." }

/-- The WARNING behavioral conflict built per shared symbol name of a shared
file without line overlap. -/
def behavioralConflict (target other : PRInfo) (ov : FileOverlap)
    (symbol_name : Str) : Conflict :=
  { conflict_type := ConflictType.behavioral
    severity := ConflictSeverity.warning
    source_pr := target.number
    target_pr := other.number
    file_path := ov.file_path
    symbol_name := some symbol_name
    description := str "Both PRs modify `" ++ symbol_name ++ str "` in `" ++
      ov.file_path ++ str "` at different lines. Changes may interact unexpectedly."
    recommendation := str "Review both changes to ensure they are semantically compatible." }

/-- The CRITICAL interface conflict built per (signature-changed symbol,
referencing symbol) pair. -/
def interfaceConflict (target other : PRInfo) (cs : ChangedSymbol) : Conflict :=
  { conflict_type := ConflictType.interface
    severity := ConflictSeverity.critical
    source_pr := target.number
    target_pr := other.number
    file_path := cs.symbol.file_path
    symbol_name := some cs.symbol.name
    description := str "This PR changes the signature of `" ++ cs.symbol.name ++
      str "`, but PR #" ++ natStr other.number ++ str " calls it with the old signature."
    recommendation := str "Update the caller in the other PR to match the new signature, or merge this PR first and rebase." }

/-- `_check_behavioral_conflict`: one WARNING behavioral conflict per shared
changed-symbol name of the overlapping file. -/
def _check_behavioral_conflict (target other : PRInfo) (ov : FileOverlap) :
    List Conflict :=
  (sharedSymbols target other ov.file_path).map
    (fun n => behavioralConflict target other ov n)

/-- `_check_interface_conflicts`: for every `modified_signature` change of
the target and every changed symbol of the other PR whose dependency list
contains its name, one CRITICAL interface conflict. -/
def _check_interface_conflicts (target other : PRInfo) : List Conflict :=
  target.changed_symbols.flatMap (fun cs =>
    if cs.change_type = str "modified_signature" then
      (other.changed_symbols.filter
        (fun ocs => decide (cs.symbol.name ∈ ocs.symbol.dependencies))).map
        (fun _ocs => interfaceConflict target other cs)
    else [])

/-- The per-overlap body of the main loop of `classify_conflicts`. -/
def overlapConflicts (target other : PRInfo) (ov : FileOverlap) : List Conflict :=
  if ov.has_line_overlap then
    if sharedSymbols target other ov.file_path = [] then
      [hardWarningConflict target other ov]
    else
      (sharedSymbols target other ov.file_path).map
        (fun n => hardCriticalConflict target other ov n)
  else
    _check_behavioral_conflict target other ov

/-- `classify_conflicts(target_pr, other_pr, file_overlaps)`: the per-overlap
conflicts in loop order, followed by the interface conflicts appended at the
end. -/
def classify_conflicts (target other : PRInfo) (file_overlaps : List FileOverlap) :
    List Conflict :=
  file_overlaps.flatMap (fun ov => overlapConflicts target other ov) ++
    _check_interface_conflicts target other

/-! ## Regression conversion (`core/regression.py`, `_decision_to_conflict`) -/

inductive DecisionType where
  | removal
  | addition
  | migration
  | refactor
  | pattern_change
deriving DecidableEq, Repr

/-- `decision_type.value` — the string payload of the enum. -/
def DecisionType.value : DecisionType → Str
  | DecisionType.removal => str "removal"
  | DecisionType.addition => str "addition"
  | DecisionType.migration => str "migration"
  | DecisionType.refactor => str "refactor"
  | DecisionType.pattern_change => str "pattern_change"

/-- `Decision` from `models.py` (the `merged_at` timestamp, read by no
embedded operation, is omitted). -/
structure Decision where
  decision_type : DecisionType
  entity : Str
  file_path : Option Str := none
  description : Str
  pr_number : Nat
  author : Str
deriving DecidableEq, Repr

/-- `_decision_to_conflict(pr_number, decision)`: one WARNING regression
conflict naming the original deciding PR. -/
def _decision_to_conflict (pr_number : Nat) (decision : Decision) : Conflict :=
  { conflict_type := ConflictType.regression
    severity := ConflictSeverity.warning
    source_pr := pr_number
    target_pr := decision.pr_number
    file_path := decision.file_path.getD (str "<unknown>")
    symbol_name := some decision.entity
    description := str "This PR re-introduces `" ++ decision.entity ++
      str "` which was deliberately " ++ decision.decision_type.value ++
      str "d in PR #" ++ natStr decision.pr_number ++ str " (" ++
      decision.description ++ str ")."
    recommendation := str "Check if re-introducing `" ++ decision.entity ++
      str "` is intentional. The original change was made by @" ++ decision.author ++
      str " in PR #" ++ natStr decision.pr_number ++ str "." }

/-! ### Structure of the classifier's output -/

lemma overlapConflicts_shape (target other : PRInfo) (ov : FileOverlap) (c : Conflict)
    (h : c ∈ overlapConflicts target other ov) :
    c.file_path = ov.file_path ∧
    ((c.conflict_type = ConflictType.hard ∧ c.severity = ConflictSeverity.critical ∧
        ov.has_line_overlap = true ∧
        ∃ n ∈ sharedSymbols target other ov.file_path,
          c = hardCriticalConflict target other ov n) ∨
     (c.conflict_type = ConflictType.hard ∧ c.severity = ConflictSeverity.warning ∧
        c.symbol_name = none ∧ ov.has_line_overlap = true ∧
        sharedSymbols target other ov.file_path = [] ∧
        c = hardWarningConflict target other ov) ∨
     (c.conflict_type = ConflictType.behavioral ∧ c.severity = ConflictSeverity.warning ∧
        ∃ n, c = behavioralConflict target other ov n)) := by
  unfold overlapConflicts at h
  by_cases hline : ov.has_line_overlap
  · rw [if_pos hline] at h
    by_cases hsh : sharedSymbols target other ov.file_path = []
    · rw [if_pos hsh] at h
      rcases List.mem_singleton.mp h with rfl
      exact ⟨rfl, Or.inr (Or.inl ⟨rfl, rfl, rfl, hline, hsh, rfl⟩)⟩
    · rw [if_neg hsh] at h
      rw [List.mem_map] at h
      obtain ⟨n, hn, rfl⟩ := h
      exact ⟨rfl, Or.inl ⟨rfl, rfl, hline, n, hn, rfl⟩⟩
  · rw [if_neg hline] at h
    unfold _check_behavioral_conflict at h
    rw [List.mem_map] at h
    obtain ⟨n, hn, rfl⟩ := h
    exact ⟨rfl, Or.inr (Or.inr ⟨rfl, rfl, n, rfl⟩)⟩

lemma interfaceConflicts_shape (target other : PRInfo) (c : Conflict)
    (h : c ∈ _check_interface_conflicts target other) :
    c.conflict_type = ConflictType.interface ∧ c.severity = ConflictSeverity.critical ∧
    ∃ cs, c = interfaceConflict target other cs := by
  unfold _check_interface_conflicts at h
  rw [List.mem_flatMap] at h
  obtain ⟨cs, hcs, hc⟩ := h
  by_cases hsig : cs.change_type = str "modified_signature"
  · rw [if_pos hsig] at hc
    rw [List.mem_map] at hc
    obtain ⟨ocs, -, rfl⟩ := hc
    exact ⟨rfl, rfl, cs, rfl⟩
  · rw [if_neg hsig] at hc
    exact absurd hc (List.not_mem_nil c)

/-- C3: every conflict the classifier emits has its severity fully determined
by its type and the producing rule — shared-entity hard conflicts are
CRITICAL, file-level hard conflicts (no symbol name) are WARNING, behavioral
conflicts are WARNING, interface conflicts are CRITICAL, the classifier emits
no other type — and the regression converter always produces a WARNING
regression conflict. -/
theorem conflict_severity_rule (target other : PRInfo) (ovs : List FileOverlap)
    (pr_number : Nat) (decision : Decision) :
    (∀ c ∈ classify_conflicts target other ovs,
      (c.conflict_type = ConflictType.hard → c.symbol_name ≠ none →
        c.severity = ConflictSeverity.critical) ∧
      (c.conflict_type = ConflictType.hard → c.symbol_name = none →
        c.severity = ConflictSeverity.warning) ∧
      (c.conflict_type = ConflictType.behavioral →
        c.severity = ConflictSeverity.warning) ∧
      (c.conflict_type = ConflictType.interface →
        c.severity = ConflictSeverity.critical) ∧
      (c.conflict_type = ConflictType.hard ∨
       c.conflict_type = ConflictType.behavioral ∨
       c.conflict_type = ConflictType.interface)) ∧
    (_decision_to_conflict pr_number decision).conflict_type = ConflictType.regression ∧
    (_decision_to_conflict pr_number decision).severity = ConflictSeverity.warning := by
  refine ⟨?_, rfl, rfl⟩
  intro c hc
  rcases List.mem_append.mp hc with hov | hint
  · rw [List.mem_flatMap] at hov
    obtain ⟨ov, -, h⟩ := hov
    rcases overlapConflicts_shape target other ov c h with
      ⟨-, ⟨hty, hsev, -, n, -, rfl⟩ | ⟨hty, hsev, hname, -, -, rfl⟩ | ⟨hty, hsev, n, rfl⟩⟩
    · refine ⟨fun _ _ => hsev, fun _ hn => ?_, fun hb => ?_, fun hi => ?_, Or.inl hty⟩
      · simp [hardCriticalConflict] at hn
      · rw [hty] at hb; cases hb
      · rw [hty] at hi; cases hi
    · refine ⟨fun _ hn => absurd hname hn, fun _ _ => hsev, fun hb => ?_, fun hi => ?_,
        Or.inl hty⟩
      · rw [hty] at hb; cases hb
      · rw [hty] at hi; cases hi
    · refine ⟨fun hh => ?_, fun hh _ => ?_, fun _ => hsev, fun hi => ?_,
        Or.inr (Or.inl hty)⟩
      · rw [hty] at hh; cases hh
      · rw [hty] at hh; cases hh
      · rw [hty] at hi; cases hi
  · rcases interfaceConflicts_shape target other c hint with ⟨hty, hsev, -⟩
    refine ⟨fun hh _ => ?_, fun hh _ => ?_, fun hb => ?_, fun _ => hsev, Or.inr (Or.inr hty)⟩
    · rw [hty] at hh; cases hh
    · rw [hty] at hh; cases hh
    · rw [hty] at hb; cases hb

/-- A concrete function symbol shared by the two scenario PRs. -/
def computeSym : Symbol :=
  { name := str "compute"
    symbol_type := SymbolType.function
    file_path := str "a.py"
    start_line := 10
    end_line := 20 }

/-- Scenario PR A: modifies `compute` at lines 10–12 of `a.py`. -/
def prA : PRInfo :=
  { number := 1
    changed_files := [{ path := str "a.py", status := FileChangeStatus.modified }]
    changed_symbols := [{ symbol := computeSym, change_type := str "modified_body",
                          diff_lines := (10, 12) }] }

/-- Scenario PR B: modifies `compute` at lines 11–13 of `a.py`. -/
def prB : PRInfo :=
  { number := 2
    changed_files := [{ path := str "a.py", status := FileChangeStatus.modified }]
    changed_symbols := [{ symbol := computeSym, change_type := str "modified_body",
                          diff_lines := (11, 13) }] }

/-- The file overlap of the two scenario PRs, with intersecting ranges. -/
def ovAB : FileOverlap :=
  { file_path := str "a.py"
    pr_a := 1
    pr_b := 2
    pr_a_lines := [(10, 12)]
    pr_b_lines := [(11, 13)] }

lemma countP_flatMap_eq (p : Conflict → Bool) (f : FileOverlap → List Conflict)
    (l : List FileOverlap) :
    (l.flatMap f).countP p = (l.map (fun x => (f x).countP p)).sum := by
  induction l with
  | nil => simp
  | cons x xs ih => simp [List.flatMap_cons, List.countP_append, ih]

lemma sum_map_single (g : FileOverlap → ℕ) (l : List FileOverlap) (ov : FileOverlap)
    (hnd : (l.map FileOverlap.file_path).Nodup) (hov : ov ∈ l)
    (hz : ∀ ov' ∈ l, ov'.file_path ≠ ov.file_path → g ov' = 0) :
    (l.map g).sum = g ov := by
  induction l with
  | nil => cases hov
  | cons x xs ih =>
    rw [List.map_cons, List.sum_cons]
    rw [List.map_cons, List.nodup_cons] at hnd
    rcases List.mem_cons.mp hov with heq | hov'
    · subst heq
      have htail : (xs.map g).sum = 0 := by
        apply List.sum_eq_zero
        intro y hy
        rw [List.mem_map] at hy
        obtain ⟨ov', hov', rfl⟩ := hy
        apply hz ov' (List.mem_cons_of_mem _ hov')
        intro heq
        exact hnd.1 (heq ▸ List.mem_map_of_mem FileOverlap.file_path hov')
      rw [htail]
      omega
    · have hxz : g x = 0 := by
        apply hz x (List.mem_cons_self x xs)
        intro heq
        exact hnd.1 (heq ▸ List.mem_map_of_mem FileOverlap.file_path hov')
      rw [hxz, ih hnd.2 hov'
        (fun ov' h hne => hz ov' (List.mem_cons_of_mem _ h) hne)]
      omega

lemma sharedSymbols_nodup (target other : PRInfo) (f : Str) :
    (sharedSymbols target other f).Nodup :=
  (List.nodup_dedup _).filter _

lemma countP_decide_eq_one {l : List Str} {n : Str} (hnd : l.Nodup) (hn : n ∈ l) :
    l.countP (fun m => decide (m = n)) = 1 := by
  induction l with
  | nil => cases hn
  | cons a l ih =>
    rw [List.nodup_cons] at hnd
    rw [List.countP_cons]
    rcases List.mem_cons.mp hn with heq | hmem
    · subst heq
      have h0 : l.countP (fun m => decide (m = n)) = 0 := by
        rw [List.countP_eq_zero]
        intro m hm
        simp only [decide_eq_true_eq]
        rintro rfl
        exact hnd.1 hm
      simp [h0]
    · have hne : (decide (a = n) : Bool) = false := by
        simp only [decide_eq_false_iff_not]
        rintro rfl
        exact hnd.1 hmem
      simp [ih hnd.2 hmem, hne]

lemma countP_decide_eq_zero {l : List Str} {n : Str} (hn : n ∉ l) :
    l.countP (fun m => decide (m = n)) = 0 := by
  rw [List.countP_eq_zero]
  intro m hm
  simp only [decide_eq_true_eq]
  rintro rfl
  exact hn hm

lemma sharedSymbols_mem (target other : PRInfo) (f n : Str) :
    n ∈ sharedSymbols target other f ↔
      (∃ cs ∈ target.changed_symbols, cs.symbol.file_path = f ∧ cs.symbol.name = n) ∧
      (∃ cs ∈ other.changed_symbols, cs.symbol.file_path = f ∧ cs.symbol.name = n) := by
  unfold sharedSymbols changedSymbolNames
  simp only [List.mem_filter, List.mem_dedup, List.mem_map, decide_eq_true_eq]
  aesop

/-- C2: for an overlap list with pairwise-distinct files, a line-overlapping
shared file contributes exactly one CRITICAL hard conflict per entity name in
both PRs' changed-entity sets restricted to that file (and none for any other
name), and when no shared name exists exactly one hard conflict for the file
— a WARNING one carrying no symbol name.  (The shared-name list is
characterized against the PRs' changed-symbol records in the first
conjunct.) -/
theorem classify_conflicts_hard_rule (target other : PRInfo) (ovs : List FileOverlap)
    (ov : FileOverlap) (hnd : (ovs.map FileOverlap.file_path).Nodup)
    (hov : ov ∈ ovs) (hline : ov.has_line_overlap = true) :
    (∀ n f, n ∈ sharedSymbols target other f ↔
      (∃ cs ∈ target.changed_symbols, cs.symbol.file_path = f ∧ cs.symbol.name = n) ∧
      (∃ cs ∈ other.changed_symbols, cs.symbol.file_path = f ∧ cs.symbol.name = n)) ∧
    (∀ n ∈ sharedSymbols target other ov.file_path,
      (classify_conflicts target other ovs).countP
        (fun c => decide (c.conflict_type = ConflictType.hard ∧
          c.severity = ConflictSeverity.critical ∧
          c.file_path = ov.file_path ∧ c.symbol_name = some n)) = 1) ∧
    (∀ n, n ∉ sharedSymbols target other ov.file_path →
      (classify_conflicts target other ovs).countP
        (fun c => decide (c.conflict_type = ConflictType.hard ∧
          c.severity = ConflictSeverity.critical ∧
          c.file_path = ov.file_path ∧ c.symbol_name = some n)) = 0) ∧
    (sharedSymbols target other ov.file_path = [] →
      (classify_conflicts target other ovs).countP
        (fun c => decide (c.conflict_type = ConflictType.hard ∧
          c.file_path = ov.file_path)) = 1 ∧
      ∀ c ∈ classify_conflicts target other ovs,
        c.conflict_type = ConflictType.hard → c.file_path = ov.file_path →
        c.severity = ConflictSeverity.warning ∧ c.symbol_name = none) := by
  have hint0 : ∀ p : Conflict → Bool,
      (∀ c, c.conflict_type = ConflictType.interface → p c = false) →
      (_check_interface_conflicts target other).countP p = 0 := by
    intro p hp
    rw [List.countP_eq_zero]
    intro c hc
    rcases interfaceConflicts_shape target other c hc with ⟨hty, -, -⟩
    rw [hp c hty]
    exact Bool.false_ne_true
  have hsplit : ∀ p : Conflict → Bool,
      (∀ c, c.conflict_type = ConflictType.interface → p c = false) →
      (∀ ov' ∈ ovs, ov'.file_path ≠ ov.file_path →
        (overlapConflicts target other ov').countP p = 0) →
      (classify_conflicts target other ovs).countP p =
        (overlapConflicts target other ov).countP p := by
    intro p hpi hpz
    unfold classify_conflicts
    rw [List.countP_append, hint0 p hpi, Nat.add_zero, countP_flatMap_eq,
      sum_map_single _ ovs ov hnd hov hpz]
  refine ⟨fun n f => sharedSymbols_mem target other f n, ?_, ?_, ?_⟩
  · intro n hn
    rw [hsplit _ (fun c hty => by simp [hty]) ?zero]
    case zero =>
      intro ov' hov' hne
      rw [List.countP_eq_zero]
      intro c hc
      have hfp := (overlapConflicts_shape target other ov' c hc).1
      simp [hfp, hne]
    unfold overlapConflicts
    rw [if_pos hline, if_neg (List.ne_nil_of_mem hn), List.countP_map]
    have hcongr : (sharedSymbols target other ov.file_path).countP
        (fun m => decide ((hardCriticalConflict target other ov m).conflict_type =
            ConflictType.hard ∧
          (hardCriticalConflict target other ov m).severity = ConflictSeverity.critical ∧
          (hardCriticalConflict target other ov m).file_path = ov.file_path ∧
          (hardCriticalConflict target other ov m).symbol_name = some n)) =
        (sharedSymbols target other ov.file_path).countP (fun m => decide (m = n)) := by
      apply List.countP_congr
      intro m _
      by_cases h : m = n <;> simp [hardCriticalConflict, h]
    rw [Function.comp_def, hcongr]
    exact countP_decide_eq_one (sharedSymbols_nodup target other ov.file_path) hn
  · intro n hn
    rw [hsplit _ (fun c hty => by simp [hty]) ?zero2]
    case zero2 =>
      intro ov' hov' hne
      rw [List.countP_eq_zero]
      intro c hc
      have hfp := (overlapConflicts_shape target other ov' c hc).1
      simp [hfp, hne]
    unfold overlapConflicts
    rw [if_pos hline]
    by_cases hsh : sharedSymbols target other ov.file_path = []
    · rw [if_pos hsh]
      simp [hardWarningConflict]
    · rw [if_neg hsh, List.countP_map]
      have hcongr : (sharedSymbols target other ov.file_path).countP
          (fun m => decide ((hardCriticalConflict target other ov m).conflict_type =
              ConflictType.hard ∧
            (hardCriticalConflict target other ov m).severity = ConflictSeverity.critical ∧
            (hardCriticalConflict target other ov m).file_path = ov.file_path ∧
            (hardCriticalConflict target other ov m).symbol_name = some n)) =
          (sharedSymbols target other ov.file_path).countP (fun m => decide (m = n)) := by
        apply List.countP_congr
        intro m _
        by_cases h : m = n <;> simp [hardCriticalConflict, h]
      rw [Function.comp_def, hcongr]
      exact countP_decide_eq_zero hn
  · intro hsh
    constructor
    · rw [hsplit _ (fun c hty => by simp [hty]) ?zero3]
      case zero3 =>
        intro ov' hov' hne
        rw [List.countP_eq_zero]
        intro c hc
        have hfp := (overlapConflicts_shape target other ov' c hc).1
        simp [hfp, hne]
      unfold overlapConflicts
      rw [if_pos hline, if_pos hsh]
      simp [hardWarningConflict]
    · intro c hc hty hfp
      rcases List.mem_append.mp hc with hmem | hmem
      · rw [List.mem_flatMap] at hmem
        obtain ⟨ov', hov', h⟩ := hmem
        have hfp' := (overlapConflicts_shape target other ov' c h).1
        have hfeq : ov'.file_path = ov.file_path := by rw [← hfp', hfp]
        have hov'eq : ov' = ov :=
          List.inj_on_of_nodup_map hnd hov' hov hfeq
        subst hov'eq
        rcases (overlapConflicts_shape target other ov' c h).2 with
          ⟨-, -, -, n, hn, -⟩ | ⟨-, hsev, hname, -, -, -⟩ | ⟨htyb, -, -⟩
        · rw [hsh] at hn
          cases hn
        · exact ⟨hsev, hname⟩
        · rw [hty] at htyb
          cases htyb
      · rcases interfaceConflicts_shape target other c hmem with ⟨htyi, -, -⟩
        rw [hty] at htyi
        cases htyi

/-! ## Diff parser (`analysis/diff_parser.py`) -/

structure DiffHunk where
  old_start : Nat
  old_count : Nat
  new_start : Nat
  new_count : Nat
  added_lines : List (Nat × Str)
  removed_lines : List (Nat × Str)
  context_lines : List (Nat × Str)
deriving DecidableEq, Repr

structure FileDiff where
  path : Str
  old_path : Option Str
  hunks : List DiffHunk
  is_new : Bool := false
  is_deleted : Bool := false
deriving DecidableEq, Repr

/-- `FileDiff.all_modified_line_ranges`: per hunk with added lines, the
`[min line, max line]` range over the added lines only. -/
def FileDiff.all_modified_line_ranges (fd : FileDiff) : List (Nat × Nat) :=
  fd.hunks.filterMap (fun h =>
    match h.added_lines.map Prod.fst with
    | [] => none
    | x :: xs => some (xs.foldl min x, xs.foldl max x))

/-- Python's `text.split(sep)` for a one-character separator: the empty
string splits to `[""]`, and separators at the ends produce empty pieces. -/
def splitOnChar (sep : Char) : Str → List Str
  | [] => [[]]
  | c :: cs =>
    match splitOnChar sep cs with
    | [] => [[]]
    | y :: ys => if c = sep then [] :: y :: ys else (c :: y) :: ys

/-- Split a string at the LAST occurrence of `sep`, returning the pieces
before and after it; `none` when `sep` does not occur.  (Used to model the
greedy first group of `DIFF_HEADER`.) -/
def lastSplitOn (sep : Str) : Str → Option (Str × Str)
  | [] => none
  | c :: cs =>
    match lastSplitOn sep cs with
    | some (pre, post) => some (c :: pre, post)
    | none =>
      if sep <+: (c :: cs) then some ([], (c :: cs).drop sep.length) else none

/-- The regex `DIFF_HEADER = ^diff --git a/(.*) b/(.*)$`: the line must
start with `diff --git a/` and contain a later ` b/`; the greedy first group
extends to the last ` b/` occurrence. -/
def parseDiffHeader (line : Str) : Option (Str × Str) :=
  if str "diff --git a/" <+: line then
    match lastSplitOn (str " b/") (line.drop (str "diff --git a/").length) with
    | some (old_path, new_path) => some (old_path, new_path)
    | none => none
  else none

/-- Value of a digit run (most significant first). -/
def digitsVal (ds : Str) : Nat := ds.foldl (fun n c => n * 10 + (c.toNat - 48)) 0

/-- Consume a leading `\d+`: its value and the rest, or `none` if the string
does not start with a digit. -/
def takeNat (s : Str) : Option (Nat × Str) :=
  match s.takeWhile Char.isDigit with
  | [] => none
  | ds => some (digitsVal ds, s.drop ds.length)

/-- Consume an optional `,(\d+)` group; an omitted count defaults to 1 and
consumes nothing (also when a comma is not followed by digits, as with the
regex's optional group failing to participate). -/
def parseOptCount (s : Str) : Nat × Str :=
  match s with
  | ',' :: rest =>
    (match takeNat rest with
     | some (n, rest') => (n, rest')
     | none => (1, s))
  | _ => (1, s)

/-- The regex `HUNK_HEADER = ^@@ -(\d+)(?:,(\d+))? \+(\d+)(?:,(\d+))? @@`
(anchored at the start only; trailing text after the closing `@@` is
allowed). -/
def parseHunkHeader (line : Str) : Option (Nat × Nat × Nat × Nat) :=
  if str "@@ -" <+: line then
    match takeNat (line.drop 4) with
    | none => none
    | some (old_start, r1) =>
      match parseOptCount r1 with
      | (old_count, r2) =>
        if str " +" <+: r2 then
          match takeNat (r2.drop 2) with
          | none => none
          | some (new_start, r3) =>
            match parseOptCount r3 with
            | (new_count, r4) =>
              if str " @@" <+: r4 then some (old_start, old_count, new_start, new_count)
              else none
        else none
  else none

/-- The scan state of `parse_unified_diff`: emitted files, current
file/hunk cursor, and the two running line counters. -/
structure ParseState where
  files : List FileDiff
  current_file : Option FileDiff
  current_hunk : Option DiffHunk
  new_line_num : Nat
  old_line_num : Nat
deriving DecidableEq, Repr

/-- One loop iteration of `parse_unified_diff` over a single line. -/
def diffStep (st : ParseState) (line : Str) : ParseState :=
  match parseDiffHeader line with
  | some (old_path, new_path) =>
    { files :=
        match st.current_file, st.current_hunk with
        | some f, some h => st.files ++ [{ f with hunks := f.hunks ++ [h] }]
        | some f, none => st.files ++ [f]
        | none, _ => st.files
      current_file := some
        { path := new_path
          old_path := if old_path ≠ new_path then some old_path else none
          hunks := [] }
      current_hunk := none
      new_line_num := st.new_line_num
      old_line_num := st.old_line_num }
  | none =>
    match st.current_file with
    | none => st
    | some cf =>
      if str "new file" <+: line then
        { st with current_file := some { cf with is_new := true } }
      else if str "deleted file" <+: line then
        { st with current_file := some { cf with is_deleted := true } }
      else
        match parseHunkHeader line with
        | some (old_start, old_count, new_start, new_count) =>
          { st with
            current_file := some
              (match st.current_hunk with
               | some h => { cf with hunks := cf.hunks ++ [h] }
               | none => cf)
            current_hunk := some
              { old_start := old_start, old_count := old_count
                new_start := new_start, new_count := new_count
                added_lines := [], removed_lines := [], context_lines := [] }
            new_line_num := new_start
            old_line_num := old_start }
        | none =>
          match st.current_hunk with
          | none => st
          | some h =>
            if str "+" <+: line ∧ ¬ (str "+++" <+: line) then
              { st with
                current_hunk := some
                  { h with added_lines := h.added_lines ++ [(st.new_line_num, line.drop 1)] }
                new_line_num := st.new_line_num + 1 }
            else if str "-" <+: line ∧ ¬ (str "---" <+: line) then
              { st with
                current_hunk := some
                  { h with removed_lines := h.removed_lines ++ [(st.old_line_num, line.drop 1)] }
                old_line_num := st.old_line_num + 1 }
            else if str " " <+: line then
              { st with
                current_hunk := some
                  { h with context_lines := h.context_lines ++ [(st.new_line_num, line.drop 1)] }
                new_line_num := st.new_line_num + 1
                old_line_num := st.old_line_num + 1 }
            else st

/-- The end-of-input flush: close any open hunk and file. -/
def parseFlush (st : ParseState) : List FileDiff :=
  match st.current_file, st.current_hunk with
  | some f, some h => st.files ++ [{ f with hunks := f.hunks ++ [h] }]
  | some f, none => st.files ++ [f]
  | none, _ => st.files

/-- `parse_unified_diff` on an already-split line list. -/
def parseLines (lines : List Str) : List FileDiff :=
  parseFlush (lines.foldl diffStep
    { files := [], current_file := none, current_hunk := none
      new_line_num := 0, old_line_num := 0 })

/-- `parse_unified_diff(diff_text)`: scan `diff_text.split("\n")`. -/
def parse_unified_diff (diff_text : Str) : List FileDiff :=
  parseLines (splitOnChar '\n' diff_text)

lemma not_prefix_of_head_ne {a b : Char} {xs ys l : Str} (h : (a :: xs) <+: l)
    (hne : b ≠ a) : ¬ ((b :: ys) <+: l) := by
  rcases h with ⟨t, rfl⟩
  rintro ⟨t', ht'⟩
  rw [List.cons_append, List.cons_append] at ht'
  injection ht' with h1 _
  exact hne h1

lemma diffStep_flags (l : Str) (files : List FileDiff) (cf : FileDiff) (n o : Nat)
    (hh : parseDiffHeader l = none) (hk : parseHunkHeader l = none) :
    diffStep ⟨files, some cf, none, n, o⟩ l =
      ⟨files, some { cf with
          is_new := cf.is_new || decide (str "new file" <+: l)
          is_deleted := cf.is_deleted || decide (str "deleted file" <+: l) },
        none, n, o⟩ := by
  by_cases hnew : str "new file" <+: l
  · have hdel : ¬ (str "deleted file" <+: l) := by
      have hnew' : 'n' :: str "ew file" <+: l := hnew
      exact not_prefix_of_head_ne hnew' (by decide)
    simp [diffStep, hh, hnew, hdel]
  · by_cases hdel : str "deleted file" <+: l
    · simp [diffStep, hh, hnew, hdel]
    · simp [diffStep, hh, hk, hnew, hdel]

lemma foldl_flags (ls : List Str) : ∀ (files : List FileDiff) (cf : FileDiff) (n o : Nat),
    (∀ l ∈ ls, parseDiffHeader l = none ∧ parseHunkHeader l = none) →
    ls.foldl diffStep ⟨files, some cf, none, n, o⟩ =
      ⟨files, some { cf with
          is_new := cf.is_new || ls.any (fun l => decide (str "new file" <+: l))
          is_deleted := cf.is_deleted || ls.any (fun l => decide (str "deleted file" <+: l)) },
        none, n, o⟩ := by
  induction ls with
  | nil =>
    intro files cf n o _
    simp
  | cons l ls ih =>
    intro files cf n o h
    rw [List.foldl_cons,
      diffStep_flags l files cf n o (h l (List.mem_cons_self l ls)).1
        (h l (List.mem_cons_self l ls)).2,
      ih files _ n o (fun l' hl' => h l' (List.mem_cons_of_mem _ hl'))]
    simp [Bool.or_assoc]

/-- C9: `parse_unified_diff` is total and robust — empty input parses to the
empty list; a line matching no recognized pattern (malformed headers
included) leaves the entire scan state unchanged; no line other than a
recognized added/removed/context content line (or a hunk header, which
resets them) touches the two line counters; and a file section with no hunk
lines still emits its `FileDiff`, with zero hunks and with `is_new` /
`is_deleted` exactly when a marker line occurs in the section. -/
theorem parse_unified_diff_robust :
    (parse_unified_diff (str "") = []) ∧
    (∀ (st : ParseState) (line : Str),
      parseDiffHeader line = none →
      ¬ (str "new file" <+: line) → ¬ (str "deleted file" <+: line) →
      parseHunkHeader line = none →
      ¬ (str "+" <+: line) → ¬ (str "-" <+: line) → ¬ (str " " <+: line) →
      diffStep st line = st) ∧
    (∀ (st : ParseState) (line : Str),
      parseHunkHeader line = none →
      ¬ ((str "+" <+: line) ∧ ¬ (str "+++" <+: line)) →
      ¬ ((str "-" <+: line) ∧ ¬ (str "---" <+: line)) →
      ¬ (str " " <+: line) →
      (diffStep st line).new_line_num = st.new_line_num ∧
      (diffStep st line).old_line_num = st.old_line_num) ∧
    (∀ (header old_path new_path : Str) (ls : List Str),
      parseDiffHeader header = some (old_path, new_path) →
      (∀ l ∈ ls, parseDiffHeader l = none ∧ parseHunkHeader l = none) →
      parseLines (header :: ls) =
        [{ path := new_path
           old_path := if old_path ≠ new_path then some old_path else none
           hunks := []
           is_new := ls.any (fun l => decide (str "new file" <+: l))
           is_deleted := ls.any (fun l => decide (str "deleted file" <+: l)) }]) := by
  refine ⟨rfl, ?_, ?_, ?_⟩
  · intro st line hh hnew hdel hk hplus hminus hspace
    obtain ⟨files, cfile, chunk, n, o⟩ := st
    cases cfile with
    | none => simp [diffStep, hh]
    | some cf =>
      cases chunk with
      | none => simp [diffStep, hh, hnew, hdel, hk]
      | some h => simp [diffStep, hh, hnew, hdel, hk, hplus, hminus, hspace]
  · intro st line hk hplus hminus hspace
    obtain ⟨files, cfile, chunk, n, o⟩ := st
    cases hline : parseDiffHeader line with
    | some v =>
      obtain ⟨op, np⟩ := v
      simp [diffStep, hline]
    | none =>
      cases cfile with
      | none => simp [diffStep, hline]
      | some cf =>
        by_cases hnew : str "new file" <+: line
        · simp [diffStep, hline, hnew]
        · by_cases hdel : str "deleted file" <+: line
          · simp [diffStep, hline, hnew, hdel]
          · cases chunk with
            | none => simp [diffStep, hline, hnew, hdel, hk]
            | some h => simp [diffStep, hline, hnew, hdel, hk, hplus, hminus, hspace]
  · intro header old_path new_path ls hhd hls
    unfold parseLines
    rw [List.foldl_cons]
    have hstep : diffStep
        { files := [], current_file := none, current_hunk := none
          new_line_num := 0, old_line_num := 0 } header =
        { files := []
          current_file := some
            { path := new_path
              old_path := if old_path ≠ new_path then some old_path else none
              hunks := [] }
          current_hunk := none
          new_line_num := 0
          old_line_num := 0 } := by
      simp [diffStep, hhd]
    rw [hstep, foldl_flags ls [] _ 0 0 hls]
    simp [parseFlush]

/-- Witness for C9: the robustness theorem applied at a concrete new-file
section with no hunk lines, all hypotheses discharged by evaluation. -/
theorem parse_unified_diff_robust_witness :
    parseLines [str "diff --git a/x b/x", str "new file mode 100644"] =
      [{ path := str "x"
         old_path := if str "x" ≠ str "x" then some (str "x") else none
         hunks := []
         is_new := [str "new file mode 100644"].any (fun l => decide (str "new file" <+: l))
         is_deleted := [str "new file mode 100644"].any
           (fun l => decide (str "deleted file" <+: l)) }] :=
  parse_unified_diff_robust.2.2.2 (str "diff --git a/x b/x") (str "x") (str "x")
    [str "new file mode 100644"] (by decide) (by decide)

/-! ## Overlap computation (`core/conflict.py`, `_get_modified_ranges` and
`compute_file_overlaps`) -/

/-- The fallback loop of `_get_modified_ranges` over `pr.changed_files`:
for the first matching file with a truthy (non-`None`, non-empty) patch whose
synthesized diff parses to at least one `FileDiff`, the first file's modified
ranges; the loop continues past files whose synthesized diff parses to
nothing. -/
def _ranges_from_files : List ChangedFile → Str → List (Nat × Nat)
  | [], _ => []
  | cf :: rest, file_path =>
    if cf.path = file_path ∧ cf.patch.getD [] ≠ [] then
      match parse_unified_diff (str "diff --git a/" ++ cf.path ++ str " b/" ++ cf.path ++
          '\n' :: cf.patch.getD []) with
      | [] => _ranges_from_files rest file_path
      | fd :: _ => fd.all_modified_line_ranges
    else _ranges_from_files rest file_path

/-- `_get_modified_ranges(pr, file_path)`: the first changed symbol whose
file matches wins with its single `diff_lines` range; only when no changed
symbol matches is the raw-patch fallback consulted. -/
def _get_modified_ranges (pr : PRInfo) (file_path : Str) : List (Nat × Nat) :=
  match pr.changed_symbols.find? (fun cs => decide (cs.symbol.file_path = file_path)) with
  | some cs => [cs.diff_lines]
  | none => _ranges_from_files pr.changed_files file_path

/-- `compute_file_overlaps(target_pr, other_prs)`: per other PR (skipping the
target itself and PRs sharing no file), one `FileOverlap` per shared file
carrying both PRs' `_get_modified_ranges`.  The Python iterates the shared
files as a set; the model fixes the target's file order. -/
def compute_file_overlaps (target : PRInfo) (other_prs : List PRInfo) :
    List (Nat × List FileOverlap) :=
  other_prs.filterMap (fun other =>
    if other.number = target.number then none
    else if target.file_paths.filter (fun p => decide (p ∈ other.file_paths)) = [] then
      none
    else
      match (target.file_paths.filter (fun p => decide (p ∈ other.file_paths))).map
          (fun path => FileOverlap.mk path target.number other.number
            (_get_modified_ranges target path) (_get_modified_ranges other path)) with
      | [] => none
      | fos => some (other.number, fos))

lemma find?_eq_head?_filter (p : ChangedSymbol → Bool) (l : List ChangedSymbol) :
    l.find? p = (l.filter p).head? := by
  induction l with
  | nil => rfl
  | cons a l ih =>
    by_cases h : p a = true
    · rw [List.find?_cons_of_pos _ h, List.filter_cons_of_pos h]
      rfl
    · rw [List.find?_cons_of_neg _ (by simpa using h), List.filter_cons_of_neg (by simpa using h)]
      exact ih

/-- C10: when a PR has at least one changed symbol in the queried file,
`_get_modified_ranges` returns the one-element list holding the FIRST such
symbol's `diff_lines` — every other symbol's range is dropped and the
raw-patch fallback is never consulted — and the overlaps handed to the
classifier carry exactly these range lists for both PRs. -/
theorem get_modified_ranges_first :
    (∀ (pr : PRInfo) (file_path : Str),
      (∃ cs ∈ pr.changed_symbols, cs.symbol.file_path = file_path) →
      ∃ cs₀,
        (pr.changed_symbols.filter
          (fun cs => decide (cs.symbol.file_path = file_path))).head? = some cs₀ ∧
        _get_modified_ranges pr file_path = [cs₀.diff_lines]) ∧
    (∀ (target : PRInfo) (others : List PRInfo) (entry : Nat × List FileOverlap),
      entry ∈ compute_file_overlaps target others →
      ∀ ov ∈ entry.2,
        ov.pr_a = target.number ∧ ov.pr_b = entry.1 ∧
        ov.pr_a_lines = _get_modified_ranges target ov.file_path ∧
        ∃ other ∈ others, other.number = entry.1 ∧
          ov.pr_b_lines = _get_modified_ranges other ov.file_path) := by
  constructor
  · intro pr file_path hex
    obtain ⟨cs, hcs, hf⟩ := hex
    have hne : (pr.changed_symbols.filter
        (fun cs => decide (cs.symbol.file_path = file_path))) ≠ [] := by
      intro hnil
      have : cs ∈ pr.changed_symbols.filter
          (fun cs => decide (cs.symbol.file_path = file_path)) :=
        List.mem_filter.mpr ⟨hcs, decide_eq_true hf⟩
      rw [hnil] at this
      cases this
    obtain ⟨cs₀, rest, hfl⟩ : ∃ cs₀ rest, pr.changed_symbols.filter
        (fun cs => decide (cs.symbol.file_path = file_path)) = cs₀ :: rest := by
      cases h : pr.changed_symbols.filter
          (fun cs => decide (cs.symbol.file_path = file_path)) with
      | nil => exact absurd h hne
      | cons a l => exact ⟨a, l, rfl⟩
    refine ⟨cs₀, by rw [hfl]; rfl, ?_⟩
    unfold _get_modified_ranges
    rw [find?_eq_head?_filter, hfl]
    rfl
  · intro target others entry hentry ov hov
    unfold compute_file_overlaps at hentry
    rw [List.mem_filterMap] at hentry
    obtain ⟨other, hother, hsome⟩ := hentry
    by_cases hnum : other.number = target.number
    · rw [if_pos hnum] at hsome
      cases hsome
    · rw [if_neg hnum] at hsome
      by_cases hsh : target.file_paths.filter (fun p => decide (p ∈ other.file_paths)) = []
      · rw [if_pos hsh] at hsome
        cases hsome
      · rw [if_neg hsh] at hsome
        obtain ⟨p₀, ps, hps⟩ : ∃ p₀ ps, target.file_paths.filter
            (fun p => decide (p ∈ other.file_paths)) = p₀ :: ps := by
          cases h : target.file_paths.filter (fun p => decide (p ∈ other.file_paths)) with
          | nil => exact absurd h hsh
          | cons a l => exact ⟨a, l, rfl⟩
        rw [hps, List.map_cons] at hsome
        have hentry_eq : entry = (other.number,
            (FileOverlap.mk p₀ target.number other.number
              (_get_modified_ranges target p₀) (_get_modified_ranges other p₀)) ::
            ps.map (fun path => FileOverlap.mk path target.number other.number
              (_get_modified_ranges target path) (_get_modified_ranges other path))) := by
          cases hsome
          rfl
        subst hentry_eq
        rcases List.mem_cons.mp hov with rfl | hov'
        · exact ⟨rfl, rfl, rfl, other, hother, rfl, rfl⟩
        · rw [List.mem_map] at hov'
          obtain ⟨path, -, rfl⟩ := hov'
          exact ⟨rfl, rfl, rfl, other, hother, rfl, rfl⟩

/-- Witness for C10 at the concrete scenario PR: its single changed symbol's
range is the one used. -/
theorem get_modified_ranges_first_witness :
    ∃ cs₀,
      (prA.changed_symbols.filter
        (fun cs => decide (cs.symbol.file_path = str "a.py"))).head? = some cs₀ ∧
      _get_modified_ranges prA (str "a.py") = [cs₀.diff_lines] :=
  get_modified_ranges_first.1 prA (str "a.py")
    ⟨{ symbol := computeSym, change_type := str "modified_body", diff_lines := (10, 12) },
     by decide, by decide⟩

/-- Witness for C2: the claim's own scenario.  Two PRs both modify the
function `compute` at overlapping line ranges of the same file: the
classifier emits exactly one CRITICAL hard conflict naming `compute`.
All hypotheses are discharged by evaluation on the concrete scenario. -/
theorem classify_conflicts_hard_rule_witness :
    (classify_conflicts prA prB [ovAB]).countP
      (fun c => decide (c.conflict_type = ConflictType.hard ∧
        c.severity = ConflictSeverity.critical ∧
        c.file_path = ovAB.file_path ∧ c.symbol_name = some (str "compute"))) = 1 :=
  (classify_conflicts_hard_rule prA prB [ovAB] ovAB (by decide) (by decide)
    (by decide)).2.1 (str "compute") (by decide)

/-- Witness for C3: the severity rule applied to a concrete conflict of the
concrete scenario classification. -/
theorem conflict_severity_rule_witness :
    (hardCriticalConflict prA prB ovAB (str "compute")).severity =
      ConflictSeverity.critical :=
  (((conflict_severity_rule prA prB [ovAB] 1
      { decision_type := DecisionType.removal, entity := str "legacy_auth_handler",
        description := str "removed", pr_number := 3, author := str "ann" }).1
    (hardCriticalConflict prA prB ovAB (str "compute")) (by decide)).1) (by decide) (by decide)

/-! ## Dependency graph (`analysis/dependency.py`)

The source keeps an authoritative edge list plus `_forward`/`_reverse`
adjacency dictionaries that `add_edge` maintains as derived indexes; the
model recomputes the reverse adjacency from the edge list (same contents,
set semantics rendered as a deduplicated list).  The `while queue` loop of
`get_dependents` is embedded with an explicit fuel argument; `bfsFuel` is
proven sufficient (the loop dequeues at most `1 + Σ |adjacency|` entries, as
every node is expanded at most once). -/

structure ImportEdge where
  source_file : Str
  target_file : Str
  imported_names : List Str := []
deriving DecidableEq, Repr

structure DependencyGraph where
  edges : List ImportEdge := []
deriving DecidableEq, Repr

/-- `self._reverse.get(file, set())`: the sources of all edges targeting
`file`. -/
def reverseAdj (g : DependencyGraph) (file : Str) : List Str :=
  ((g.edges.filter (fun e => decide (e.target_file = file))).map
    (fun e => e.source_file)).dedup

/-- The `while queue:` loop of `get_dependents`: FIFO queue of
(node, depth) pairs, skipping visited nodes and entries beyond `max_depth`,
appending each newly visited node's reverse neighbours at depth + 1. -/
def bfsLoop (adj : Str → List Str) (max_depth : Nat) :
    Nat → List (Str × Nat) → List Str → List Str
  | 0, _, visited => visited
  | _ + 1, [], visited => visited
  | fuel + 1, (current, depth) :: queue, visited =>
    if current ∈ visited ∨ max_depth < depth then
      bfsLoop adj max_depth fuel queue visited
    else
      bfsLoop adj max_depth fuel
        (queue ++ (adj current).map (fun dep => (dep, depth + 1)))
        (visited ++ [current])

/-- A fuel bound sufficient for `bfsLoop` to drain its queue: one initial
entry plus the total reverse-adjacency size over all possible nodes. -/
def bfsFuel (g : DependencyGraph) (file_path : Str) : Nat :=
  1 + (((file_path :: g.edges.map (fun e => e.source_file)).dedup).map
    (fun x => (reverseAdj g x).length)).sum

/-- `get_dependents(file_path, max_depth)`: BFS over the reverse adjacency,
with the start file discarded from the visited set at the end. -/
def DependencyGraph.get_dependents (g : DependencyGraph) (file_path : Str)
    (max_depth : Nat) : List Str :=
  (bfsLoop (reverseAdj g) max_depth (bfsFuel g file_path) [(file_path, 0)] []).filter
    (fun x => decide (x ≠ file_path))

/-- `dependency_depth(file_path)`: the size of `get_dependents(file_path)`
at the source's default `max_depth = 5`. -/
def DependencyGraph.dependency_depth (g : DependencyGraph) (file_path : Str) : Nat :=
  (g.get_dependents file_path 5).length

/-- The nodes at distance at most `k` from `start` along `adj`. -/
def reachSet (adj : Str → List Str) (start : Str) : Nat → Finset Str
  | 0 => {start}
  | k + 1 => reachSet adj start k ∪
      (reachSet adj start k).biUnion (fun x => (adj x).toFinset)

/-- `ReachWithin adj start x k`: there is an `adj`-path from `start` to `x`
of length at most `k` — the specification's "reachable within k hops". -/
inductive ReachWithin (adj : Str → List Str) (start : Str) : Str → Nat → Prop
  | refl (k : Nat) : ReachWithin adj start start k
  | step {y z : Str} {k : Nat} :
      ReachWithin adj start y k → z ∈ adj y → ReachWithin adj start z (k + 1)

lemma ReachWithin.mono {adj : Str → List Str} {start x : Str} {k : Nat}
    (h : ReachWithin adj start x k) : ReachWithin adj start x (k + 1) := by
  induction h with
  | refl k => exact ReachWithin.refl (k + 1)
  | step hy hz ih => exact ReachWithin.step ih hz

lemma mem_reachSet_iff (adj : Str → List Str) (start : Str) :
    ∀ (k : Nat) (x : Str), x ∈ reachSet adj start k ↔ ReachWithin adj start x k := by
  intro k
  induction k with
  | zero =>
    intro x
    simp only [reachSet, Finset.mem_singleton]
    constructor
    · rintro rfl
      exact ReachWithin.refl 0
    · intro h
      cases h
      rfl
  | succ k ih =>
    intro x
    simp only [reachSet, Finset.mem_union, Finset.mem_biUnion, List.mem_toFinset]
    constructor
    · rintro (hx | ⟨y, hy, hxy⟩)
      · exact ((ih x).mp hx).mono
      · exact ReachWithin.step ((ih y).mp hy) hxy
    · intro h
      cases h with
      | refl => exact Or.inl ((ih start).mpr (ReachWithin.refl k))
      | step hy hz => exact Or.inr ⟨_, (ih _).mpr hy, hz⟩

/-- One queue level of the BFS, processed in order: the freshly visited
nodes (those not yet in `v`, deduplicated) and the concatenation of their
adjacency lists. -/
def processLevel (adj : Str → List Str) : List Str → List Str → List Str × List Str
  | _, [] => ([], [])
  | v, a :: F =>
    if a ∈ v then processLevel adj v F
    else
      (a :: (processLevel adj (v ++ [a]) F).1,
       adj a ++ (processLevel adj (v ++ [a]) F).2)

/-- The level-by-level view of the BFS: run `k + 1` levels, accumulating
visited nodes; the final level's neighbours are dropped. -/
def levelRun (adj : Str → List Str) : Nat → List Str → List Str → List Str
  | 0, F, v => v ++ (processLevel adj v F).1
  | k + 1, F, v => levelRun adj k (processLevel adj v F).2 (v ++ (processLevel adj v F).1)

lemma processLevel_snd (adj : Str → List Str) :
    ∀ (F v : List Str), (processLevel adj v F).2 = (processLevel adj v F).1.flatMap adj := by
  intro F
  induction F with
  | nil => intro v; rfl
  | cons a F ih =>
    intro v
    by_cases h : a ∈ v
    · simp [processLevel, h, ih]
    · simp [processLevel, h, ih]

lemma processLevel_fst_fresh (adj : Str → List Str) :
    ∀ (F v : List Str),
      (processLevel adj v F).1.Nodup ∧ ∀ x ∈ (processLevel adj v F).1, x ∉ v := by
  intro F
  induction F with
  | nil => intro v; exact ⟨List.nodup_nil, by simp [processLevel]⟩
  | cons a F ih =>
    intro v
    by_cases h : a ∈ v
    · simpa [processLevel, h] using ih v
    · obtain ⟨hnd, hfresh⟩ := ih (v ++ [a])
      refine ⟨?_, ?_⟩
      · simp only [processLevel, h, if_false]
        rw [List.nodup_cons]
        refine ⟨fun ha => ?_, hnd⟩
        exact hfresh a ha (by simp)
      · intro x hx
        simp only [processLevel, h, if_false] at hx
        rcases List.mem_cons.mp hx with rfl | hx'
        · exact h
        · intro hxv
          exact hfresh x hx' (List.mem_append_left _ hxv)

lemma processLevel_fst_subset (adj : Str → List Str) :
    ∀ (F v : List Str), ∀ x ∈ (processLevel adj v F).1, x ∈ F := by
  intro F
  induction F with
  | nil => intro v x hx; simp [processLevel] at hx
  | cons a F ih =>
    intro v x hx
    by_cases h : a ∈ v
    · simp only [processLevel, h, if_true] at hx
      exact List.mem_cons_of_mem _ (ih v x hx)
    · simp only [processLevel, h, if_false] at hx
      rcases List.mem_cons.mp hx with rfl | hx'
      · exact List.mem_cons_self _ _
      · exact List.mem_cons_of_mem _ (ih (v ++ [a]) x hx')

lemma processLevel_fst_toFinset (adj : Str → List Str) :
    ∀ (F v : List Str),
      (processLevel adj v F).1.toFinset = F.toFinset \ v.toFinset := by
  intro F
  induction F with
  | nil => intro v; simp [processLevel]
  | cons a F ih =>
    intro v
    by_cases h : a ∈ v
    · rw [List.toFinset_cons]
      simp only [processLevel, h, if_true, ih v]
      rw [Finset.insert_sdiff_of_mem _ (List.mem_toFinset.mpr h)]
    · simp only [processLevel, h, if_false]
      rw [List.toFinset_cons, List.toFinset_cons, ih (v ++ [a])]
      ext x
      simp only [Finset.mem_insert, Finset.mem_sdiff, List.mem_toFinset, List.mem_append,
        List.mem_singleton]
      constructor
      · rintro (rfl | ⟨hF, hnva⟩)
        · exact ⟨Or.inl rfl, h⟩
        · exact ⟨Or.inr hF, fun hv => hnva (Or.inl hv)⟩
      · rintro ⟨rfl | hF, hnv⟩
        · exact Or.inl rfl
        · by_cases hxa : x = a
          · exact Or.inl hxa
          · exact Or.inr ⟨hF, fun hc => hc.elim hnv hxa⟩

lemma bfsLoop_phase (adj : Str → List Str) (maxd d : Nat) (hd : d ≤ maxd) :
    ∀ (A B v : List Str) (fuel : Nat), A.length ≤ fuel →
    bfsLoop adj maxd fuel (A.map (fun a => (a, d)) ++ B.map (fun b => (b, d + 1))) v =
      bfsLoop adj maxd (fuel - A.length)
        ((B ++ (processLevel adj v A).2).map (fun b => (b, d + 1)))
        (v ++ (processLevel adj v A).1) := by
  intro A
  induction A with
  | nil =>
    intro B v fuel _
    simp [processLevel]
  | cons a A ih =>
    intro B v fuel hfuel
    rw [List.length_cons] at hfuel
    cases fuel with
    | zero => omega
    | succ fuel =>
      rw [List.map_cons, List.cons_append]
      show bfsLoop adj maxd (fuel + 1)
        ((a, d) :: (A.map (fun a => (a, d)) ++ B.map (fun b => (b, d + 1)))) v = _
      by_cases hav : a ∈ v
      · rw [bfsLoop, if_pos (Or.inl hav)]
        rw [ih B v fuel (by omega)]
        simp only [processLevel, hav, if_true, List.length_cons,
          Nat.succ_sub_succ]
      · rw [bfsLoop, if_neg (by
          rw [not_or]
          exact ⟨hav, not_lt.mpr hd⟩)]
        rw [List.append_assoc, ← List.map_append]
        rw [ih (B ++ adj a) (v ++ [a]) fuel (by omega)]
        simp only [processLevel, hav, if_false, List.length_cons, Nat.succ_sub_succ]
        rw [List.append_assoc, List.append_assoc, List.singleton_append]

lemma bfsLoop_drop (adj : Str → List Str) (maxd : Nat) :
    ∀ (B v : List Str) (fuel : Nat), B.length ≤ fuel →
    bfsLoop adj maxd fuel (B.map (fun b => (b, maxd + 1))) v = v := by
  intro B
  induction B with
  | nil =>
    intro v fuel _
    cases fuel <;> rfl
  | cons b B ih =>
    intro v fuel hf
    rw [List.length_cons] at hf
    cases fuel with
    | zero => omega
    | succ fuel =>
      rw [List.map_cons, bfsLoop, if_pos (Or.inr (Nat.lt_succ_self maxd))]
      exact ih v fuel (by omega)

lemma fresh_sum_le (adj : Str → List Str) (U : Finset Str) (F v : List Str)
    (hF : ∀ x ∈ F, x ∈ U) :
    (processLevel adj v F).2.length + ∑ x ∈ (U \ v.toFinset) \
        (processLevel adj v F).1.toFinset, (adj x).length =
      ∑ x ∈ U \ v.toFinset, (adj x).length := by
  have hsubset : (processLevel adj v F).1.toFinset ⊆ U \ v.toFinset := by
    rw [processLevel_fst_toFinset]
    intro x hx
    rw [Finset.mem_sdiff] at hx ⊢
    exact ⟨hF x (List.mem_toFinset.mp hx.1), hx.2⟩
  have hlen : (processLevel adj v F).2.length =
      ∑ x ∈ (processLevel adj v F).1.toFinset, (adj x).length := by
    rw [processLevel_snd, List.length_flatMap,
      List.sum_toFinset _ (processLevel_fst_fresh adj F v).1]
    rfl
  rw [hlen, Nat.add_comm, Finset.sum_sdiff hsubset]

lemma bfsLoop_levels (adj : Str → List Str) (maxd : Nat) (U : Finset Str)
    (hU : ∀ x, ∀ y ∈ adj x, y ∈ U) :
    ∀ (k d : Nat), d + k = maxd →
    ∀ (F v : List Str) (fuel : Nat),
    (∀ x ∈ F, x ∈ U) →
    F.length + ∑ x ∈ U \ v.toFinset, (adj x).length ≤ fuel →
    bfsLoop adj maxd fuel (F.map (fun a => (a, d))) v = levelRun adj k F v := by
  intro k
  induction k with
  | zero =>
    intro d hd F v fuel hF hfuel
    have hdm : d = maxd := by omega
    subst hdm
    have hphase := bfsLoop_phase adj d d le_rfl F [] v fuel (by omega)
    rw [List.map_nil, List.append_nil] at hphase
    rw [hphase, List.nil_append]
    have hsum := fresh_sum_le adj U F v hF
    rw [bfsLoop_drop adj d _ _ _ (by omega)]
    rfl
  | succ k ih =>
    intro d hd F v fuel hF hfuel
    have hphase := bfsLoop_phase adj maxd d (by omega) F [] v fuel (by omega)
    rw [List.map_nil, List.append_nil] at hphase
    rw [hphase, List.nil_append]
    show _ = levelRun adj k (processLevel adj v F).2 (v ++ (processLevel adj v F).1)
    apply ih (d + 1) (by omega)
    · intro y hy
      rw [processLevel_snd, List.mem_flatMap] at hy
      obtain ⟨a, -, hya⟩ := hy
      exact hU a y hya
    · have hsum := fresh_sum_le adj U F v hF
      have hsd : U \ (v ++ (processLevel adj v F).1).toFinset =
          (U \ v.toFinset) \ (processLevel adj v F).1.toFinset := by
        rw [List.toFinset_append]
        ext x
        simp only [Finset.mem_sdiff, Finset.mem_union]
        tauto
      rw [hsd]
      omega

lemma flatMap_toFinset (adj : Str → List Str) : ∀ l : List Str,
    (l.flatMap adj).toFinset = l.toFinset.biUnion (fun a => (adj a).toFinset) := by
  intro l
  induction l with
  | nil => simp
  | cons a l ih => simp [List.flatMap_cons, List.toFinset_append, ih]

lemma levelRun_reach (adj : Str → List Str) (f : Str) :
    ∀ (k d : Nat) (F v : List Str),
    v.Nodup →
    v.toFinset ∪ F.toFinset = reachSet adj f d →
    (∀ y ∈ v, ∀ z ∈ adj y, z ∈ reachSet adj f d) →
    (levelRun adj k F v).Nodup ∧
    (levelRun adj k F v).toFinset = reachSet adj f (d + k) := by
  intro k
  induction k with
  | zero =>
    intro d F v hnd hset hclosed
    constructor
    · rw [levelRun, List.nodup_append]
      exact ⟨hnd, (processLevel_fst_fresh adj F v).1,
        fun x hxv hxf => (processLevel_fst_fresh adj F v).2 x hxf hxv⟩
    · rw [levelRun, List.toFinset_append, processLevel_fst_toFinset,
        Finset.union_sdiff_self_eq_union, hset, Nat.add_zero]
  | succ k ih =>
    intro d F v hnd hset hclosed
    have hvf : v.toFinset ∪ (processLevel adj v F).1.toFinset = reachSet adj f d := by
      rw [processLevel_fst_toFinset, Finset.union_sdiff_self_eq_union, hset]
    have hfreshS : (processLevel adj v F).1.toFinset ⊆ reachSet adj f d := by
      rw [← hvf]
      exact Finset.subset_union_right
    have hnd' : (v ++ (processLevel adj v F).1).Nodup := by
      rw [List.nodup_append]
      exact ⟨hnd, (processLevel_fst_fresh adj F v).1,
        fun x hxv hxf => (processLevel_fst_fresh adj F v).2 x hxf hxv⟩
    have hset' : (v ++ (processLevel adj v F).1).toFinset ∪
        (processLevel adj v F).2.toFinset = reachSet adj f (d + 1) := by
      rw [List.toFinset_append, hvf, processLevel_snd, flatMap_toFinset]
      show reachSet adj f d ∪ _ = reachSet adj f (d + 1)
      rw [reachSet]
      apply Finset.Subset.antisymm
      · apply Finset.union_subset_union_right
        exact Finset.biUnion_subset_biUnion_of_subset_left _ hfreshS
      · apply Finset.union_subset Finset.subset_union_left
        intro x hx
        rw [Finset.mem_biUnion] at hx
        obtain ⟨y, hyS, hxy⟩ := hx
        rw [← hvf, Finset.mem_union] at hyS
        rcases hyS with hyv | hyf
        · exact Finset.mem_union_left _
            (hclosed y (List.mem_toFinset.mp hyv) x (List.mem_toFinset.mp hxy))
        · exact Finset.mem_union_right _ (Finset.mem_biUnion.mpr ⟨y, hyf, hxy⟩)
    have hclosed' : ∀ y ∈ v ++ (processLevel adj v F).1, ∀ z ∈ adj y,
        z ∈ reachSet adj f (d + 1) := by
      intro y hy z hz
      rcases List.mem_append.mp hy with hyv | hyf
      · have := hclosed y hyv z hz
        rw [reachSet]
        exact Finset.mem_union_left _ this
      · rw [reachSet]
        apply Finset.mem_union_right
        rw [Finset.mem_biUnion]
        exact ⟨y, hfreshS (List.mem_toFinset.mpr hyf), List.mem_toFinset.mpr hz⟩
    obtain ⟨h1, h2⟩ := ih (d + 1) (processLevel adj v F).2
      (v ++ (processLevel adj v F).1) hnd' hset' hclosed'
    refine ⟨h1, ?_⟩
    rw [levelRun, h2]
    congr 1
    omega

/-- C8 (amended): `get_dependents(file, maxDepth)` returns exactly the files
other than `file` reachable from it via reverse import edges within
`maxDepth` hops, with no duplicates (no node processed twice); and
`dependency_depth(file)` is the cardinality of the dependents set bounded at
the source's default depth 5 — not of the full (unbounded) dependents set. -/
theorem get_dependents_reach (g : DependencyGraph) (file_path : Str) (max_depth : Nat) :
    (∀ x, x ∈ g.get_dependents file_path max_depth ↔
      x ≠ file_path ∧ ReachWithin (reverseAdj g) file_path x max_depth) ∧
    (g.get_dependents file_path max_depth).Nodup ∧
    g.dependency_depth file_path =
      ((reachSet (reverseAdj g) file_path 5).erase file_path).card := by
  have hU : ∀ x, ∀ y ∈ reverseAdj g x,
      y ∈ ((file_path :: g.edges.map (fun e => e.source_file)).dedup).toFinset := by
    intro x y hy
    unfold reverseAdj at hy
    rw [List.mem_dedup, List.mem_map] at hy
    obtain ⟨e, he, rfl⟩ := hy
    rw [List.mem_filter] at he
    rw [List.mem_toFinset, List.mem_dedup]
    exact List.mem_cons_of_mem _ (List.mem_map_of_mem _ he.1)
  have hmain : ∀ md, bfsLoop (reverseAdj g) md (bfsFuel g file_path)
      [(file_path, 0)] [] = levelRun (reverseAdj g) md [file_path] [] := by
    intro md
    have h := bfsLoop_levels (reverseAdj g) md
      ((file_path :: g.edges.map (fun e => e.source_file)).dedup).toFinset hU md 0
      (by omega) [file_path] [] (bfsFuel g file_path) ?_ ?_
    · simpa using h
    · intro x hx
      rcases List.mem_singleton.mp hx with rfl
      rw [List.mem_toFinset, List.mem_dedup]
      exact List.mem_cons_self _ _
    · rw [List.toFinset_nil, Finset.sdiff_empty]
      have hsum := List.sum_toFinset (fun x => (reverseAdj g x).length)
        (List.nodup_dedup (file_path :: g.edges.map (fun e => e.source_file)))
      unfold bfsFuel
      rw [hsum]
      simp
  have hreach : ∀ md, (levelRun (reverseAdj g) md [file_path] []).Nodup ∧
      (levelRun (reverseAdj g) md [file_path] []).toFinset =
        reachSet (reverseAdj g) file_path md := by
    intro md
    have h := levelRun_reach (reverseAdj g) file_path md 0 [file_path] []
      List.nodup_nil ?_ ?_
    · simpa using h
    · simp [reachSet]
    · intro y hy
      cases hy
  refine ⟨?_, ?_, ?_⟩
  · intro x
    unfold DependencyGraph.get_dependents
    rw [hmain max_depth, List.mem_filter]
    simp only [decide_eq_true_eq]
    constructor
    · rintro ⟨hmem, hne⟩
      refine ⟨hne, ?_⟩
      rw [← mem_reachSet_iff, ← (hreach max_depth).2]
      exact List.mem_toFinset.mpr hmem
    · rintro ⟨hne, hr⟩
      refine ⟨?_, hne⟩
      rw [← List.mem_toFinset, (hreach max_depth).2, mem_reachSet_iff]
      exact hr
  · unfold DependencyGraph.get_dependents
    rw [hmain max_depth]
    exact ((hreach max_depth).1).filter _
  · unfold DependencyGraph.dependency_depth DependencyGraph.get_dependents
    rw [hmain 5]
    have hnd : ((levelRun (reverseAdj g) 5 [file_path] []).filter
        (fun x => decide (x ≠ file_path))).Nodup := ((hreach 5).1).filter _
    rw [← List.toFinset_card_of_nodup hnd]
    congr 1
    ext x
    simp only [List.mem_toFinset, List.mem_filter, decide_eq_true_eq,
      Finset.mem_erase]
    rw [← List.mem_toFinset, (hreach 5).2]
    tauto

/-- A linear import chain: `f1` imports `f0`, `f2` imports `f1`, …, `f7`
imports `f6`; so `f1 … f7` all transitively depend on `f0`. -/
def chainG : DependencyGraph :=
  { edges :=
      [ { source_file := str "f1", target_file := str "f0" }
      , { source_file := str "f2", target_file := str "f1" }
      , { source_file := str "f3", target_file := str "f2" }
      , { source_file := str "f4", target_file := str "f3" }
      , { source_file := str "f5", target_file := str "f4" }
      , { source_file := str "f6", target_file := str "f5" }
      , { source_file := str "f7", target_file := str "f6" } ] }

/-- The claim's "full dependents set" of a file, stated in the
specification's words: every file other than the file itself that is
reachable from it via reverse import edges at any depth.  Depth
`edges.length + 1` saturates reachability (the fixpoint conjunct of the
counterexample witnesses this on the concrete graph), so it stands for
"unbounded". -/
def fullDependentsSet (g : DependencyGraph) (file_path : Str) : Finset Str :=
  (reachSet (reverseAdj g) file_path (g.edges.length + 1)).erase file_path

/-- C8 counterexample: on a 7-file reverse chain, `dependency_depth`
(which calls `get_dependents` with its default `max_depth = 5`) returns 5,
while the full dependents set has 7 files — the claim's
"cardinality of the full dependents set" does not hold. -/
theorem dependency_depth_counterexample :
    chainG.dependency_depth (str "f0") = 5 ∧
    (fullDependentsSet chainG (str "f0")).card = 7 ∧
    reachSet (reverseAdj chainG) (str "f0") (chainG.edges.length + 1) =
      reachSet (reverseAdj chainG) (str "f0") (chainG.edges.length + 2) ∧
    (5 : Nat) ≠ 7 := by
  refine ⟨by decide, by decide, by decide, by decide⟩

end MergeGuard
